import Mathlib

/-!
Verification development for the uniform-schema subsystem of `globe-viz`
(`src/core/utils/uniformSchema.ts`) and the texture/bind-group management of
`src/core/renderers/computeRenderer.ts`.

The TypeScript code is shallowly embedded: the schema data model becomes a
mutual inductive, `calculateStructLayout`, `generateWGSLStruct` /
`generateWGSLBindings` and `packData` become Lean functions mirroring the
source control flow, and the `Float32Array` target buffer becomes a list of
abstract 4-byte words.
-/

namespace GlobeViz

/-- Embeds `WGSLPrimitiveType` from `uniformSchema.ts`. -/
inductive WGSLPrimitiveType where
  | f32
  | u32
  | i32
  | vec2f
  | vec3f
  | vec4f
deriving DecidableEq, Repr

/-- Embeds the `TypeInfo` record: size in bytes, required alignment, float count. -/
structure TypeInfo where
  size : Nat
  alignment : Nat
  floatCount : Nat
deriving DecidableEq, Repr

/-- Embeds the `WGSL_TYPE_INFO` table. -/
def wgslTypeInfo : WGSLPrimitiveType → TypeInfo
  | .f32 => ⟨4, 4, 1⟩
  | .u32 => ⟨4, 4, 1⟩
  | .i32 => ⟨4, 4, 1⟩
  | .vec2f => ⟨8, 8, 2⟩
  | .vec3f => ⟨12, 16, 3⟩
  | .vec4f => ⟨16, 16, 4⟩

mutual
/-- Embeds `SchemaFieldType`: a primitive tag, a nested struct, or an array of
structs / primitives.  The source's `ArrayDefinition` carries an optional
`struct` and an optional `primitive`; `calculateStructLayout` checks `struct`
first and throws when neither is present, so the two well-typed array shapes
are the two constructors here (the throwing case is unrepresentable). -/
inductive SchemaFieldType where
  | prim (p : WGSLPrimitiveType)
  | struct (s : SchemaDefinition)
  | arrayStruct (s : SchemaDefinition) (length : Nat)
  | arrayPrim (p : WGSLPrimitiveType) (length : Nat)
deriving DecidableEq, Repr

/-- Embeds `SchemaDefinition = Record<string, SchemaFieldType>`: an ordered
association of field names to field types (`Object.entries` order). -/
inductive SchemaDefinition where
  | nil
  | cons (name : String) (t : SchemaFieldType) (rest : SchemaDefinition)
deriving DecidableEq, Repr
end

/-- Embeds the `FieldLayout` record.  The `undefined` array metadata of
non-array fields becomes `none`. -/
structure FieldLayout where
  name : String
  type : SchemaFieldType
  offset : Nat
  size : Nat
  floatOffset : Nat
  floatCount : Nat
  paddingAfter : Nat
  isArray : Bool
  arrayLength : Option Nat
  arrayElementSize : Option Nat
  arrayElementFloats : Option Nat
deriving DecidableEq, Repr

/-- Embeds the `StructLayout` record. -/
structure StructLayout where
  fields : List FieldLayout
  totalSize : Nat
  totalFloats : Nat
deriving DecidableEq, Repr

/-- The per-field data resolved at the top of the `calculateStructLayout`
loop body: the `typeInfo` plus the four array-related locals. -/
structure ResolvedFieldInfo where
  typeInfo : TypeInfo
  isArray : Bool
  arrayLength : Nat
  arrayElementSize : Nat
  arrayElementFloats : Nat

/-- `alignmentOffset === 0 ? 0 : alignment - alignmentOffset`: the padding in
bytes inserted before a field at cursor `offset` with the given alignment. -/
def padBytesFor (offset alignment : Nat) : Nat :=
  if offset % alignment == 0 then 0 else alignment - offset % alignment

/-- The trailing padding-float count assigned after the field is pushed:
one float for a non-array primitive `vec3f`, zero otherwise. -/
def vec3PaddingAfter : SchemaFieldType → Nat
  | .prim .vec3f => 1
  | _ => 0

/-- Builds the `FieldLayout` record pushed by the `calculateStructLayout` loop. -/
def mkFieldLayout (name : String) (fieldType : SchemaFieldType) (info : ResolvedFieldInfo)
    (fieldOffset fieldFloatOffset : Nat) : FieldLayout :=
  { name := name
    type := fieldType
    offset := fieldOffset
    size := info.typeInfo.size
    floatOffset := fieldFloatOffset
    floatCount := info.typeInfo.floatCount
    paddingAfter := vec3PaddingAfter fieldType
    isArray := info.isArray
    arrayLength := if info.isArray then some info.arrayLength else none
    arrayElementSize := if info.isArray then some info.arrayElementSize else none
    arrayElementFloats := if info.isArray then some info.arrayElementFloats else none }

/-- The tail of `calculateStructLayout` after the field loop: final padding
to align the struct total size to 16 bytes. -/
def finishLayout (state : List FieldLayout × Nat × Nat) : StructLayout :=
  { fields := state.1
    totalSize := state.2.1 + padBytesFor state.2.1 16
    totalFloats := state.2.2 + padBytesFor state.2.1 16 / 4 }

mutual
/-- The `for (const [name, fieldType] of Object.entries(schema))` loop of
`calculateStructLayout`, with the running byte/float cursors made explicit.
Returns the fields list together with the final cursors. -/
def layoutFieldsAux : SchemaDefinition → Nat → Nat → (List FieldLayout × Nat × Nat)
  | .nil, currentOffset, currentFloatOffset => ([], currentOffset, currentFloatOffset)
  | .cons name fieldType rest, currentOffset, currentFloatOffset =>
    let info := resolveFieldInfo fieldType
    -- Calculate padding needed to align this field.
    let paddingBytes := padBytesFor currentOffset info.typeInfo.alignment
    let fieldOffset := currentOffset + paddingBytes
    let fieldFloatOffset := currentFloatOffset + paddingBytes / 4
    let field := mkFieldLayout name fieldType info fieldOffset fieldFloatOffset
    -- Advance the cursors past the field and its vec3f trailing padding.
    let nextOffset := fieldOffset + info.typeInfo.size + vec3PaddingAfter fieldType * 4
    let nextFloatOffset := fieldFloatOffset + info.typeInfo.floatCount + vec3PaddingAfter fieldType
    let tail := layoutFieldsAux rest nextOffset nextFloatOffset
    (field :: tail.1, tail.2.1, tail.2.2)

/-- The branch on the field type at the top of the `calculateStructLayout`
loop body, producing `typeInfo` and the array locals.  The recursive
`calculateStructLayout` calls of the source appear here as
`finishLayout (layoutFieldsAux s 0 0)`, which is `calculateStructLayout s`
by definition.  `Math.ceil(totalSize / 16) * 16` becomes
`(totalSize + 15) / 16 * 16`. -/
def resolveFieldInfo : SchemaFieldType → ResolvedFieldInfo
  | .prim p => ⟨wgslTypeInfo p, false, 0, 0, 0⟩
  | .struct s =>
    let nestedLayout := finishLayout (layoutFieldsAux s 0 0)
    -- Structs are 16-byte aligned in uniform buffers.
    ⟨⟨nestedLayout.totalSize, 16, nestedLayout.totalFloats⟩, false, 0, 0, 0⟩
  | .arrayStruct s len =>
    let elementLayout := finishLayout (layoutFieldsAux s 0 0)
    -- Each array element must be 16-byte aligned.
    let alignedElementSize := (elementLayout.totalSize + 15) / 16 * 16
    ⟨⟨alignedElementSize * len, 16, alignedElementSize / 4 * len⟩,
      true, len, alignedElementSize, alignedElementSize / 4⟩
  | .arrayPrim p len =>
    let primitiveInfo := wgslTypeInfo p
    -- Each array element must be 16-byte aligned (array stride rule).
    let alignedElementSize := max 16 primitiveInfo.size
    ⟨⟨alignedElementSize * len, 16, alignedElementSize / 4 * len⟩,
      true, len, alignedElementSize, alignedElementSize / 4⟩
end

/-- Embeds `calculateStructLayout` from `uniformSchema.ts`: walk the fields
accumulating a byte and a float cursor, then pad the total size to the next
multiple of 16 bytes. -/
def calculateStructLayout (schema : SchemaDefinition) : StructLayout :=
  finishLayout (layoutFieldsAux schema 0 0)

/-! ## Layout well-formedness -/

/-- The alignment `calculateStructLayout` uses for a field type. -/
def typeAlign (t : SchemaFieldType) : Nat := (resolveFieldInfo t).typeInfo.alignment

/-- The byte size `calculateStructLayout` uses for a field type. -/
def typeSize (t : SchemaFieldType) : Nat := (resolveFieldInfo t).typeInfo.size

/-- The float count `calculateStructLayout` uses for a field type. -/
def typeFloats (t : SchemaFieldType) : Nat := (resolveFieldInfo t).typeInfo.floatCount

theorem typeAlign_cases (t : SchemaFieldType) :
    typeAlign t = 4 ∨ typeAlign t = 8 ∨ typeAlign t = 16 := by
  cases t with
  | prim p => cases p <;> simp [typeAlign, resolveFieldInfo, wgslTypeInfo]
  | struct s => simp [typeAlign, resolveFieldInfo]
  | arrayStruct s len => simp [typeAlign, resolveFieldInfo]
  | arrayPrim p len => simp [typeAlign, resolveFieldInfo]

theorem typeAlign_dvd_four (t : SchemaFieldType) : 4 ∣ typeAlign t := by
  rcases typeAlign_cases t with h | h | h <;> rw [h] <;> decide

theorem typeAlign_pos (t : SchemaFieldType) : 0 < typeAlign t := by
  rcases typeAlign_cases t with h | h | h <;> omega

/-- Key arithmetic facts about the pre-field padding, for the alignments the
compiler uses: the padded cursor is aligned, the padding is less than the
alignment, and it preserves divisibility by 4. -/
theorem padBytesFor_spec (o a : Nat) (h : a = 4 ∨ a = 8 ∨ a = 16) :
    (o + padBytesFor o a) % a = 0 ∧ padBytesFor o a < a ∧
      (o % 4 = 0 → padBytesFor o a % 4 = 0) := by
  simp only [padBytesFor, beq_iff_eq]
  rcases h with h | h | h <;> subst h <;> split <;> omega

mutual
/-- Byte size is four times the float count, for every field type. -/
theorem typeSize_four_mul : (t : SchemaFieldType) → typeSize t = 4 * typeFloats t
  | .prim p => by cases p <;> rfl
  | .struct s => by
    have hc := layoutCursor_four_mul s 0 0 rfl
    simp only [typeSize, typeFloats, resolveFieldInfo, finishLayout]
    have hpad := padBytesFor_spec (layoutFieldsAux s 0 0).2.1 16 (by omega)
    omega
  | .arrayStruct s len => by
    simp only [typeSize, typeFloats, resolveFieldInfo, finishLayout]
    obtain ⟨q, hq⟩ : ∃ q, ((layoutFieldsAux s 0 0).2.1 +
        padBytesFor (layoutFieldsAux s 0 0).2.1 16 + 15) / 16 * 16 = q * 16 :=
      ⟨_, rfl⟩
    rw [hq]
    have : q * 16 / 4 = q * 4 := by omega
    rw [this]
    ring
  | .arrayPrim p len => by
    cases p <;> simp [typeSize, typeFloats, resolveFieldInfo, wgslTypeInfo] <;> ring

/-- The byte cursor stays four times the float cursor through the layout loop. -/
theorem layoutCursor_four_mul : (s : SchemaDefinition) → ∀ o fo, o = 4 * fo →
    (layoutFieldsAux s o fo).2.1 = 4 * (layoutFieldsAux s o fo).2.2
  | .nil => by intro o fo h; simpa [layoutFieldsAux]
  | .cons name t rest => by
    intro o fo h
    simp only [layoutFieldsAux]
    apply layoutCursor_four_mul rest
    have hpad := padBytesFor_spec o (typeAlign t) (typeAlign_cases t)
    have hsz := typeSize_four_mul t
    simp only [typeSize, typeFloats, typeAlign] at hpad hsz ⊢
    omega
end

/-- `totalSize` of a compiled layout is four times `totalFloats`. -/
theorem calc_totalSize_four_mul (s : SchemaDefinition) :
    (calculateStructLayout s).totalSize = 4 * (calculateStructLayout s).totalFloats := by
  have := typeSize_four_mul (.struct s)
  simpa [typeSize, typeFloats, resolveFieldInfo, calculateStructLayout] using this

/-- `totalSize` of a compiled layout is a multiple of 16 bytes. -/
theorem calc_totalSize_mod16 (s : SchemaDefinition) :
    (calculateStructLayout s).totalSize % 16 = 0 := by
  simp only [calculateStructLayout, finishLayout]
  exact (padBytesFor_spec (layoutFieldsAux s 0 0).2.1 16 (by omega)).1

theorem padBytesFor_of_aligned {o a : Nat} (h : o % a = 0) : padBytesFor o a = 0 := by
  simp [padBytesFor, h]

/-- Every field the layout loop emits has its byte offset aligned to its
type's alignment, equal to four times its float offset, and (for arrays)
a 16-byte-multiple element stride. -/
theorem layoutAux_field_facts : (s : SchemaDefinition) → ∀ o fo, o = 4 * fo →
    ∀ fl ∈ (layoutFieldsAux s o fo).1,
      fl.offset % typeAlign fl.type = 0 ∧ fl.offset = 4 * fl.floatOffset ∧
      (fl.isArray = true → fl.arrayElementSize.getD 0 % 16 = 0)
  | .nil => by intro o fo h; simp [layoutFieldsAux]
  | .cons name t rest => by
    intro o fo h fl hfl
    simp only [layoutFieldsAux, List.mem_cons] at hfl
    rcases hfl with hfl | hfl
    · subst hfl
      have hpad := padBytesFor_spec o (typeAlign t) (typeAlign_cases t)
      simp only [typeAlign] at hpad
      refine ⟨?_, ?_, ?_⟩
      · simpa [mkFieldLayout, typeAlign] using hpad.1
      · simp only [mkFieldLayout]
        omega
      · intro hisArr
        cases t with
        | prim p => simp [mkFieldLayout, resolveFieldInfo] at hisArr
        | struct s₂ => simp [mkFieldLayout, resolveFieldInfo] at hisArr
        | arrayStruct s₂ len =>
          simp only [mkFieldLayout, resolveFieldInfo, finishLayout, if_true, Option.getD_some]
          omega
        | arrayPrim p len =>
          cases p <;> simp [mkFieldLayout, resolveFieldInfo, wgslTypeInfo]
    · have hsz := typeSize_four_mul t
      have hpad := padBytesFor_spec o (typeAlign t) (typeAlign_cases t)
      exact layoutAux_field_facts rest _ _
        (by simp only [typeSize, typeFloats, typeAlign] at hsz hpad ⊢; omega) fl hfl

/-- The float cursor never decreases through the layout loop. -/
theorem layoutAux_float_mono : (s : SchemaDefinition) → ∀ o fo,
    fo ≤ (layoutFieldsAux s o fo).2.2
  | .nil => by intro o fo; simp [layoutFieldsAux]
  | .cons name t rest => by
    intro o fo
    simp only [layoutFieldsAux]
    have := layoutAux_float_mono rest
      (o + padBytesFor o (resolveFieldInfo t).typeInfo.alignment +
        (resolveFieldInfo t).typeInfo.size + vec3PaddingAfter t * 4)
      (fo + padBytesFor o (resolveFieldInfo t).typeInfo.alignment / 4 +
        (resolveFieldInfo t).typeInfo.floatCount + vec3PaddingAfter t)
    omega

/-- The span of a field in the float buffer: its floats plus its trailing
vec3f padding float. -/
def fieldSpanEnd (fl : FieldLayout) : Nat := fl.floatOffset + fl.floatCount + fl.paddingAfter

/-- Every emitted field's span ends at or before the final float cursor. -/
theorem layoutAux_span_le : (s : SchemaDefinition) → ∀ o fo, o = 4 * fo →
    ∀ fl ∈ (layoutFieldsAux s o fo).1, fieldSpanEnd fl ≤ (layoutFieldsAux s o fo).2.2
  | .nil => by intro o fo h; simp [layoutFieldsAux]
  | .cons name t rest => by
    intro o fo h fl hfl
    simp only [layoutFieldsAux, List.mem_cons] at hfl ⊢
    have hsz := typeSize_four_mul t
    have hpad := padBytesFor_spec o (typeAlign t) (typeAlign_cases t)
    rcases hfl with hfl | hfl
    · subst hfl
      have := layoutAux_float_mono rest
        (o + padBytesFor o (resolveFieldInfo t).typeInfo.alignment +
          (resolveFieldInfo t).typeInfo.size + vec3PaddingAfter t * 4)
        (fo + padBytesFor o (resolveFieldInfo t).typeInfo.alignment / 4 +
          (resolveFieldInfo t).typeInfo.floatCount + vec3PaddingAfter t)
      simp only [fieldSpanEnd, mkFieldLayout]
      omega
    · exact layoutAux_span_le rest _ _
        (by simp only [typeSize, typeFloats, typeAlign] at hsz hpad ⊢; omega) fl hfl

/-- Every field's span of a compiled layout lies inside `totalFloats`. -/
theorem calc_span_le (s : SchemaDefinition) :
    ∀ fl ∈ (calculateStructLayout s).fields, fieldSpanEnd fl ≤ (calculateStructLayout s).totalFloats := by
  intro fl hfl
  simp only [calculateStructLayout, finishLayout] at hfl ⊢
  exact le_trans (layoutAux_span_le s 0 0 rfl fl hfl) (by omega)

/-- In the emitted field list, a primitive `vec3f` field is followed by a
field whose float offset is exactly 4 greater: 3 data floats plus the one
mandatory padding float, with no alignment gap. -/
theorem layoutAux_vec3_next : (s : SchemaDefinition) → ∀ o fo, o = 4 * fo →
    ∀ i fl fl', ((layoutFieldsAux s o fo).1)[i]? = some fl →
      ((layoutFieldsAux s o fo).1)[i + 1]? = some fl' →
      fl.type = .prim .vec3f → fl'.floatOffset = fl.floatOffset + 4
  | .nil => by
    intro o fo h i fl fl' h1 h2 hty
    simp [layoutFieldsAux] at h1
  | .cons name t rest => by
    intro o fo h i fl fl' h1 h2 hty
    simp only [layoutFieldsAux] at h1 h2
    cases i with
    | zero =>
      simp only [List.getElem?_cons_zero, Option.some.injEq] at h1
      simp only [List.getElem?_cons_succ] at h2
      subst h1
      have ht : t = .prim .vec3f := by simpa [mkFieldLayout] using hty
      subst ht
      simp only [resolveFieldInfo, wgslTypeInfo, vec3PaddingAfter] at h2 ⊢
      cases rest with
      | nil => simp [layoutFieldsAux] at h2
      | cons n2 t2 r2 =>
        simp only [layoutFieldsAux, List.getElem?_cons_zero, Option.some.injEq] at h2
        subst h2
        have hpad := padBytesFor_spec o 16 (by omega)
        have hz : padBytesFor (o + padBytesFor o 16 + 12 + 1 * 4) (typeAlign t2) = 0 := by
          apply padBytesFor_of_aligned
          rcases typeAlign_cases t2 with h4 | h8 | h16 <;> rw [‹typeAlign t2 = _›] <;> omega
        simp only [typeAlign] at hz
        simp only [mkFieldLayout, hz]
        try omega
    | succ j =>
      simp only [List.getElem?_cons_succ] at h1 h2
      have hsz := typeSize_four_mul t
      have hpad := padBytesFor_spec o (typeAlign t) (typeAlign_cases t)
      exact layoutAux_vec3_next rest _ _
        (by simp only [typeSize, typeFloats, typeAlign] at hsz hpad ⊢; omega) j fl fl' h1 h2 hty

end GlobeViz

namespace GlobeViz

/-! ## The packing model

The pack target is a `Float32Array` view over an `ArrayBuffer`; `packData`
writes it either through float stores (`buffer[i] = x`) or through
`DataView.setInt32 / setUint32` (exact little-endian bit patterns).  Each
4-byte slot of the buffer is modelled as a `Word`; the sub-views created for
nested structs and array-of-struct elements alias the same buffer at a word
offset, so they are modelled by threading a `base` word index. -/

/-- One 4-byte slot of the packed buffer.

* `f32 v` — a float store of the finite integer-valued number `v`
  (already rounded to f32 precision);
* `nan` / `inf` — a float store of NaN (e.g. of `undefined`) or of an
  overflowing value;
* `bits n` — a raw 32-bit little-endian pattern written through
  `DataView.setInt32`/`setUint32` (`0 ≤ n < 2^32`). -/
inductive Word where
  | f32 (v : Int)
  | nan
  | inf (neg : Bool)
  | bits (n : Nat)
deriving DecidableEq, Repr

/-- Embeds `DataValue = number | number[] | {[key: string]: DataValue}`.
Numbers are restricted to integer-valued doubles, which suffices for every
claim (packing performs no arithmetic on the numbers it stores). -/
inductive DataValue where
  | num (v : Int)
  | vec (xs : List DataValue)
  | obj (fields : List (String × DataValue))

/-- Embeds `PackContext` (live canvas size). -/
structure PackContext where
  canvasWidth : Int
  canvasHeight : Int
deriving DecidableEq, Repr

/-- `Math.fround` of an integer-valued double: round to the nearest f32
(ties to even), overflowing to an infinity.  Exact for `|n| < 2^24`. -/
def froundInt (n : Int) : Word :=
  let m := n.natAbs
  if m < 2 ^ 24 then .f32 n
  else
    let shift := Nat.log2 m - 23
    let q := m / 2 ^ shift
    let r := m % 2 ^ shift
    let half := 2 ^ (shift - 1)
    let q' := if half < r ∨ (r = half ∧ q % 2 = 1) then q + 1 else q
    let v := q' * 2 ^ shift
    if 2 ^ 128 ≤ v then .inf (decide (n < 0))
    else .f32 (if n < 0 then -(v : Int) else (v : Int))

/-- `n` is exactly representable as an f32 (so `Math.fround n = n`). -/
def F32Exact (n : Int) : Prop := froundInt n = .f32 n

instance (n : Int) : Decidable (F32Exact n) := by unfold F32Exact; infer_instance

/-- JavaScript `ToNumber` on the values a `DataValue` slot can hold, with
`none` for both `undefined` (a missing value) and a NaN result:
numbers are themselves; `[]` is `0`; a one-element array converts as its
element if that is a number; other arrays and all objects give NaN. -/
def jsToNumber : Option DataValue → Option Int
  | none => none
  | some (.num v) => some v
  | some (.vec []) => some 0
  | some (.vec [.num v]) => some v
  | some (.vec _) => none
  | some (.obj _) => none

/-- A float store `buffer[i] = value`: `ToNumber` then f32 rounding
(NaN for `undefined` and non-numeric values). -/
def f32Store (value : Option DataValue) : Word :=
  match jsToNumber value with
  | none => .nan
  | some n => froundInt n

/-- The 32-bit pattern stored by `dataView.setInt32(_, value, true)` or
`setUint32`: `ToNumber` followed by reduction mod 2^32 (NaN becomes 0).
Signed and unsigned stores write the same bytes. -/
def intStoreBits (value : Option DataValue) : Nat :=
  match jsToNumber value with
  | none => 0
  | some n => (n % (2 ^ 32 : Int)).toNat

/-- The word written by a zero fill `buffer[i] = 0`. -/
def zeroWord : Word := .f32 0

/-- JavaScript truthiness of a possibly-undefined `DataValue`
(`undefined` and `0` are falsy; arrays and objects are truthy). -/
def jsTruthy : Option DataValue → Bool
  | none => false
  | some (.num v) => v != 0
  | some (.vec _) => true
  | some (.obj _) => true

/-- `value.length` for a possibly-undefined `DataValue` (`none` when the
property is `undefined`, as on numbers and plain objects). -/
def jsLength : Option DataValue → Option Nat
  | some (.vec xs) => some xs.length
  | _ => none

/-- `value[i]` for a possibly-undefined `DataValue` (`undefined` off the
end of an array and on non-arrays). -/
def jsIndex : Option DataValue → Nat → Option DataValue
  | some (.vec xs), i => xs.get? i
  | _, _ => none

/-- `Array.isArray(value)`. -/
def jsIsArray : Option DataValue → Bool
  | some (.vec _) => true
  | _ => false

/-- Property lookup `data[name]` on an object value (`undefined` when the
key is absent or the value is not an object). -/
def jsProp : DataValue → String → Option DataValue
  | .obj fields, name => (fields.find? (·.1 == name)).map (·.2)
  | _, _ => none

/-- The `i < arrayData.length` test guarded by `arrayData`'s truthiness
(`arrayData && i < arrayData.length`); `i < undefined` is false. -/
def suppliedIndex (arrayData : Option DataValue) (i : Nat) : Bool :=
  jsTruthy arrayData && (match jsLength arrayData with
    | some len => decide (i < len)
    | none => false)

/-- `for (j = 0; j < count; j++) buffer[start + j] = 0` — the zero-fill
loops of `packData`.  A `List.set` out of range is a no-op, exactly the
semantics of an out-of-range `Float32Array` store. -/
def setZeros (buffer : List Word) (start : Nat) : Nat → List Word
  | 0 => buffer
  | count + 1 => setZeros (buffer.set start zeroWord) (start + 1) count

/-- `for (i = 0; i < count; i++) buffer[start + i] = value[i]` — the vector
store loop (`i` counts from `idx`, writing `count` more floats). -/
def writeVecLoop (value : Option DataValue) (start : Nat) :
    Nat → Nat → List Word → List Word
  | _, 0, buffer => buffer
  | idx, count + 1, buffer =>
    writeVecLoop value start (idx + 1) count
      (buffer.set (start + idx) (f32Store (jsIndex value idx)))

/-- The primitive (non-array) field case of `packData`: vector values store
their components (plus the vec3f trailing padding); scalar `i32`/`u32`
values go through the `DataView` bit store, other scalars through a float
store; then `paddingAfter` floats are zero-filled. -/
def packPrimField (p : WGSLPrimitiveType) (field : FieldLayout) (value : Option DataValue)
    (buffer : List Word) (base : Nat) : List Word :=
  let typeInfo := wgslTypeInfo p
  let afterValue :=
    if jsIsArray value then
      writeVecLoop value (base + field.floatOffset) 0 typeInfo.floatCount buffer
    else if p = .i32 ∨ p = .u32 then
      buffer.set (base + field.floatOffset) (.bits (intStoreBits value))
    else
      buffer.set (base + field.floatOffset) (f32Store value)
  setZeros afterValue (base + field.floatOffset + typeInfo.floatCount) field.paddingAfter

/-- The array-of-primitives loop of `packData`: `count` remaining elements,
the next having index `i`.  Supplied elements are written (vector components,
or a `DataView` bit store for scalar `i32`/`u32`, or a float store) and their
intra-element padding is zeroed; unsupplied slots are fully zero-filled. -/
def packPrimArrayLoop (p : WGSLPrimitiveType) (arrayData : Option DataValue)
    (floatOffset elementFloats base : Nat) :
    Nat → Nat → List Word → List Word
  | _, 0, buffer => buffer
  | i, count + 1, buffer =>
    let elementOffset := floatOffset + i * elementFloats
    let primitiveInfo := wgslTypeInfo p
    let next :=
      if suppliedIndex arrayData i then
        let elementValue := jsIndex arrayData i
        let afterValue :=
          if jsIsArray elementValue then
            writeVecLoop elementValue (base + elementOffset) 0 primitiveInfo.floatCount buffer
          else if p = .i32 ∨ p = .u32 then
            buffer.set (base + elementOffset) (.bits (intStoreBits elementValue))
          else
            buffer.set (base + elementOffset) (f32Store elementValue)
        -- Fill padding within each array element.
        setZeros afterValue (base + elementOffset + primitiveInfo.floatCount)
          (elementFloats - primitiveInfo.floatCount)
      else
        -- Fill unused slots with zeros.
        setZeros buffer (base + elementOffset) elementFloats
    packPrimArrayLoop p arrayData floatOffset elementFloats base (i + 1) count next

/-- The zero fill after the field loop of `packData`: when the last field is
not an array, all floats from its end to `totalFloats` are zeroed. -/
def finalPaddingFill (fields : List FieldLayout) (totalFloats : Nat)
    (buffer : List Word) (base : Nat) : List Word :=
  match fields.getLast? with
  | none => buffer
  | some lastField =>
    if lastField.isArray then buffer
    else
      let lastFieldEnd := lastField.floatOffset + lastField.floatCount + lastField.paddingAfter
      setZeros buffer (base + lastFieldEnd) (totalFloats - lastFieldEnd)

/-- The per-field value lookup at the top of the `packData` loop:
the reserved name `screenResolution` is synthesized from the context
(never touching `data`); any other name is `data[field.name]`, which throws
a `TypeError` when `data` is `undefined`. -/
def lookupFieldValue (data : Option DataValue) (name : String) (ctx : PackContext) :
    Except Unit (Option DataValue) :=
  if name = "screenResolution" then
    .ok (some (.vec [.num ctx.canvasWidth, .num ctx.canvasHeight]))
  else
    match data with
    | none => .error ()
    | some d => .ok (jsProp d name)

/-! ### Termination measure for `packData`

`packData` recurses into layouts computed by `calculateStructLayout` from
schemas stored inside the current layout's field types, so the measure is
the total weight of the field types. -/

mutual
/-- Weight of a field type (strictly larger than the weight of any schema
stored inside it). -/
def typeWeight : SchemaFieldType → Nat
  | .prim _ => 1
  | .struct s => 1 + schemaWeight s
  | .arrayStruct s _ => 1 + schemaWeight s
  | .arrayPrim _ _ => 1

/-- Weight of a schema: the summed weights of its field types. -/
def schemaWeight : SchemaDefinition → Nat
  | .nil => 0
  | .cons _ t rest => 1 + typeWeight t + schemaWeight rest
end

/-- Weight of a field-layout list, measured through the stored field types. -/
def fieldsWeight (fields : List FieldLayout) : Nat :=
  (fields.map (fun f => 1 + typeWeight f.type)).sum

/-- The fields produced by the layout loop carry exactly the schema's field
types, so their weight is the schema's weight. -/
theorem fieldsWeight_layoutFieldsAux :
    (s : SchemaDefinition) → ∀ o fo, fieldsWeight (layoutFieldsAux s o fo).1 = schemaWeight s
  | .nil => by intro o fo; simp [layoutFieldsAux, fieldsWeight, schemaWeight]
  | .cons name t rest => by
    intro o fo
    simp only [layoutFieldsAux, fieldsWeight, List.map_cons, List.sum_cons, mkFieldLayout,
      schemaWeight]
    have ih := fieldsWeight_layoutFieldsAux rest
    simp only [fieldsWeight] at ih
    rw [ih]

/-- `fieldsWeight` of a compiled layout is the schema weight. -/
theorem fieldsWeight_calculateStructLayout (s : SchemaDefinition) :
    fieldsWeight (calculateStructLayout s).fields = schemaWeight s := by
  simpa [calculateStructLayout, finishLayout] using fieldsWeight_layoutFieldsAux s 0 0

/-- Unfolded form of `fieldsWeight_calculateStructLayout` for termination proofs. -/
theorem sumWeight_calculateStructLayout (s : SchemaDefinition) :
    (List.map (fun f => 1 + typeWeight f.type) (calculateStructLayout s).fields).sum =
      schemaWeight s :=
  fieldsWeight_calculateStructLayout s

mutual
/-- Embeds `packData` from `uniformSchema.ts`: pack `data` into `buffer`
(viewed from word index `base`) according to `layout`, then zero the final
padding.  The only runtime error is the `TypeError` of a property lookup on
`undefined`, signalled as `Except.error`. -/
def packData (data : Option DataValue) (layout : StructLayout) (buffer : List Word)
    (base : Nat) (ctx : PackContext) : Except Unit (List Word) :=
  match packFieldsAux data layout.fields buffer base ctx with
  | .error e => .error e
  | .ok b => .ok (finalPaddingFill layout.fields layout.totalFloats b base)
termination_by (fieldsWeight layout.fields, 1, 0)
decreasing_by
  all_goals simp_wf
  all_goals simp only [Prod.lex_def, fieldsWeight, sumWeight_calculateStructLayout,
    List.map_cons, List.sum_cons]
  all_goals try simp_all only [typeWeight]
  all_goals try simp
  all_goals omega

/-- The `for (const field of layout.fields)` loop of `packData`. -/
def packFieldsAux (data : Option DataValue) (fields : List FieldLayout)
    (buffer : List Word) (base : Nat) (ctx : PackContext) : Except Unit (List Word) :=
  match fields with
  | [] => .ok buffer
  | field :: rest =>
    match lookupFieldValue data field.name ctx with
    | .error e => .error e
    | .ok value =>
      if field.isArray then
        match h : field.type with
        | .arrayStruct s _len =>
          let elementLayout := calculateStructLayout s
          match packStructArrayLoop value elementLayout field.floatOffset
              (field.arrayElementFloats.getD 0) base ctx 0 (field.arrayLength.getD 0) buffer with
          | .error e => .error e
          | .ok b => packFieldsAux data rest b base ctx
        | .arrayPrim p _len =>
          packFieldsAux data rest
            (packPrimArrayLoop p value field.floatOffset (field.arrayElementFloats.getD 0)
              base 0 (field.arrayLength.getD 0) buffer) base ctx
        | _ => packFieldsAux data rest buffer base ctx  -- `continue` (shouldn't happen)
      else
        match h : field.type with
        | .prim p => packFieldsAux data rest (packPrimField p field value buffer base) base ctx
        | .struct s =>
          -- Nested struct: recurse into a view at the field's offset.
          let nestedLayout := calculateStructLayout s
          match packData value nestedLayout buffer (base + field.floatOffset) ctx with
          | .error e => .error e
          | .ok b => packFieldsAux data rest b base ctx
        | _ => packFieldsAux data rest buffer base ctx  -- no branch taken in the source
termination_by (fieldsWeight fields, 0, 0)
decreasing_by
  all_goals simp_wf
  all_goals simp only [Prod.lex_def, fieldsWeight, sumWeight_calculateStructLayout,
    List.map_cons, List.sum_cons]
  all_goals try simp_all only [typeWeight]
  all_goals try simp
  all_goals omega

/-- The array-of-structs loop of `packData`: `count` remaining elements, the
next having index `i`; supplied elements recurse into a sub-view, unsupplied
slots are zero-filled. -/
def packStructArrayLoop (arrayData : Option DataValue) (elementLayout : StructLayout)
    (floatOffset elementFloats base : Nat) (ctx : PackContext) :
    Nat → Nat → List Word → Except Unit (List Word)
  | _, 0, buffer => .ok buffer
  | i, count + 1, buffer =>
    let elementOffset := floatOffset + i * elementFloats
    if suppliedIndex arrayData i then
      match packData (jsIndex arrayData i) elementLayout buffer (base + elementOffset) ctx with
      | .error e => .error e
      | .ok b =>
        packStructArrayLoop arrayData elementLayout floatOffset elementFloats base ctx
          (i + 1) count b
    else
      packStructArrayLoop arrayData elementLayout floatOffset elementFloats base ctx
        (i + 1) count (setZeros buffer (base + elementOffset) elementFloats)
termination_by i count buffer => (fieldsWeight elementLayout.fields, 2, count)
decreasing_by
  all_goals simp_wf
  all_goals simp only [Prod.lex_def, fieldsWeight, sumWeight_calculateStructLayout,
    List.map_cons, List.sum_cons]
  all_goals try simp_all only [typeWeight]
  all_goals try simp
  all_goals omega
end

/-! ## The write-list view of `packData`

To reason about which buffer positions `packData` touches and with which
words, each pack operation is mirrored by a function producing the list of
(relative index, word) stores it performs, in order; `packData` is then
proved equal to folding that list over the buffer. -/

/-- A list of buffer stores: (word index relative to the view base, word). -/
abbrev WriteList := List (Nat × Word)

/-- Apply a write list to a buffer viewed from word index `base`. -/
def applyWrites (base : Nat) (ws : WriteList) (buffer : List Word) : List Word :=
  ws.foldl (fun b iw => b.set (base + iw.1) iw.2) buffer

/-- The writes of `setZeros buffer (base + start) count`. -/
def zerosWrites (start : Nat) (count : Nat) : WriteList :=
  (List.range count).map fun j => (start + j, zeroWord)

/-- The writes of `writeVecLoop value (base + start) idx count`. -/
def vecWrites (value : Option DataValue) (start idx count : Nat) : WriteList :=
  (List.range count).map fun j => (start + idx + j, f32Store (jsIndex value (idx + j)))

/-- The writes of `packPrimField`. -/
def primFieldWrites (p : WGSLPrimitiveType) (field : FieldLayout)
    (value : Option DataValue) : WriteList :=
  (if jsIsArray value then
    vecWrites value field.floatOffset 0 (wgslTypeInfo p).floatCount
  else if p = .i32 ∨ p = .u32 then
    [(field.floatOffset, .bits (intStoreBits value))]
  else
    [(field.floatOffset, f32Store value)]) ++
  zerosWrites (field.floatOffset + (wgslTypeInfo p).floatCount) field.paddingAfter

/-- The writes of `packPrimArrayLoop`. -/
def primArrayWrites (p : WGSLPrimitiveType) (arrayData : Option DataValue)
    (floatOffset elementFloats : Nat) : Nat → Nat → WriteList
  | _, 0 => []
  | i, count + 1 =>
    let elementOffset := floatOffset + i * elementFloats
    (if suppliedIndex arrayData i then
      (let elementValue := jsIndex arrayData i;
        (if jsIsArray elementValue then
          vecWrites elementValue elementOffset 0 (wgslTypeInfo p).floatCount
        else if p = .i32 ∨ p = .u32 then
          [(elementOffset, .bits (intStoreBits elementValue))]
        else
          [(elementOffset, f32Store elementValue)]) ++
        zerosWrites (elementOffset + (wgslTypeInfo p).floatCount)
          (elementFloats - (wgslTypeInfo p).floatCount))
    else
      zerosWrites elementOffset elementFloats) ++
    primArrayWrites p arrayData floatOffset elementFloats (i + 1) count

/-- The writes of `finalPaddingFill`. -/
def finalPadWrites (fields : List FieldLayout) (totalFloats : Nat) : WriteList :=
  match fields.getLast? with
  | none => []
  | some lastField =>
    if lastField.isArray then []
    else zerosWrites (fieldSpanEnd lastField) (totalFloats - fieldSpanEnd lastField)

/-- Re-base a write list by a view offset. -/
def shiftWrites (off : Nat) (ws : WriteList) : WriteList :=
  ws.map fun iw => (off + iw.1, iw.2)

mutual
/-- The writes of `packData` (field loop followed by the final padding). -/
def layoutWrites (data : Option DataValue) (layout : StructLayout) (ctx : PackContext) :
    Except Unit WriteList :=
  match fieldsWrites data layout.fields ctx with
  | .error e => .error e
  | .ok ws => .ok (ws ++ finalPadWrites layout.fields layout.totalFloats)
termination_by (fieldsWeight layout.fields, 1, 0)
decreasing_by
  all_goals simp_wf
  all_goals simp only [Prod.lex_def, fieldsWeight, sumWeight_calculateStructLayout,
    List.map_cons, List.sum_cons]
  all_goals try simp_all only [typeWeight]
  all_goals try simp
  all_goals omega

/-- The writes of `packFieldsAux`. -/
def fieldsWrites (data : Option DataValue) (fields : List FieldLayout) (ctx : PackContext) :
    Except Unit WriteList :=
  match fields with
  | [] => .ok []
  | field :: rest =>
    match lookupFieldValue data field.name ctx with
    | .error e => .error e
    | .ok value =>
      if field.isArray then
        match h : field.type with
        | .arrayStruct s _len =>
          match structArrayWrites value (calculateStructLayout s) field.floatOffset
              (field.arrayElementFloats.getD 0) ctx 0 (field.arrayLength.getD 0) with
          | .error e => .error e
          | .ok fw => (fieldsWrites data rest ctx).map (fw ++ ·)
        | .arrayPrim p _len =>
          (fieldsWrites data rest ctx).map
            (primArrayWrites p value field.floatOffset (field.arrayElementFloats.getD 0)
              0 (field.arrayLength.getD 0) ++ ·)
        | _ => fieldsWrites data rest ctx
      else
        match h : field.type with
        | .prim p => (fieldsWrites data rest ctx).map (primFieldWrites p field value ++ ·)
        | .struct s =>
          match layoutWrites value (calculateStructLayout s) ctx with
          | .error e => .error e
          | .ok nw => (fieldsWrites data rest ctx).map (shiftWrites field.floatOffset nw ++ ·)
        | _ => fieldsWrites data rest ctx
termination_by (fieldsWeight fields, 0, 0)
decreasing_by
  all_goals simp_wf
  all_goals simp only [Prod.lex_def, fieldsWeight, sumWeight_calculateStructLayout,
    List.map_cons, List.sum_cons]
  all_goals try simp_all only [typeWeight]
  all_goals try simp
  all_goals omega

/-- The writes of `packStructArrayLoop`. -/
def structArrayWrites (arrayData : Option DataValue) (elementLayout : StructLayout)
    (floatOffset elementFloats : Nat) (ctx : PackContext) :
    Nat → Nat → Except Unit WriteList
  | _, 0 => .ok []
  | i, count + 1 =>
    let elementOffset := floatOffset + i * elementFloats
    if suppliedIndex arrayData i then
      match layoutWrites (jsIndex arrayData i) elementLayout ctx with
      | .error e => .error e
      | .ok ew =>
        (structArrayWrites arrayData elementLayout floatOffset elementFloats ctx
          (i + 1) count).map (shiftWrites elementOffset ew ++ ·)
    else
      (structArrayWrites arrayData elementLayout floatOffset elementFloats ctx
        (i + 1) count).map (zerosWrites elementOffset elementFloats ++ ·)
termination_by i count => (fieldsWeight elementLayout.fields, 2, count)
decreasing_by
  all_goals simp_wf
  all_goals simp only [Prod.lex_def, fieldsWeight, sumWeight_calculateStructLayout,
    List.map_cons, List.sum_cons]
  all_goals try simp_all only [typeWeight]
  all_goals try simp
  all_goals omega
end

/-! ### `packData` equals applying its write list -/

theorem applyWrites_append (base : Nat) (w1 w2 : WriteList) (buffer : List Word) :
    applyWrites base (w1 ++ w2) buffer = applyWrites base w2 (applyWrites base w1 buffer) := by
  simp [applyWrites, List.foldl_append]

theorem applyWrites_cons (base : Nat) (iw : Nat × Word) (ws : WriteList) (buffer : List Word) :
    applyWrites base (iw :: ws) buffer = applyWrites base ws (buffer.set (base + iw.1) iw.2) :=
  rfl

theorem zerosWrites_succ_cons (start count : Nat) :
    zerosWrites start (count + 1) = (start, zeroWord) :: zerosWrites (start + 1) count := by
  simp only [zerosWrites, List.range_succ_eq_map, List.map_cons, List.map_map, Nat.add_zero]
  congr 1
  apply List.map_congr_left
  intro j _
  simp [Function.comp, Nat.succ_eq_add_one]
  omega

theorem vecWrites_succ_cons (value : Option DataValue) (start idx count : Nat) :
    vecWrites value start idx (count + 1) =
      (start + idx, f32Store (jsIndex value idx)) :: vecWrites value start (idx + 1) count := by
  simp only [vecWrites, List.range_succ_eq_map, List.map_cons, List.map_map, Nat.add_zero]
  congr 1
  apply List.map_congr_left
  intro j _
  simp only [Function.comp_apply, Nat.succ_eq_add_one]
  rw [show start + idx + (j + 1) = start + (idx + 1) + j from by omega,
    show idx + (j + 1) = idx + 1 + j from by omega]

theorem setZeros_eq (base : Nat) :
    ∀ (count start : Nat) (buffer : List Word),
      setZeros buffer (base + start) count = applyWrites base (zerosWrites start count) buffer
  | 0, start, buffer => rfl
  | count + 1, start, buffer => by
    rw [zerosWrites_succ_cons, applyWrites_cons]
    show setZeros (buffer.set (base + start) zeroWord) (base + start + 1) count = _
    rw [show base + start + 1 = base + (start + 1) by omega]
    exact setZeros_eq base count (start + 1) _

theorem writeVecLoop_eq (value : Option DataValue) (base start : Nat) :
    ∀ (count idx : Nat) (buffer : List Word),
      writeVecLoop value (base + start) idx count buffer =
        applyWrites base (vecWrites value start idx count) buffer
  | 0, idx, buffer => rfl
  | count + 1, idx, buffer => by
    rw [vecWrites_succ_cons, applyWrites_cons]
    show writeVecLoop value (base + start) (idx + 1) count
        (buffer.set (base + start + idx) _) = _
    rw [show base + start + idx = base + (start + idx) by omega]
    exact writeVecLoop_eq value base start count (idx + 1) _

theorem packPrimField_eq (p : WGSLPrimitiveType) (field : FieldLayout)
    (value : Option DataValue) (buffer : List Word) (base : Nat) :
    packPrimField p field value buffer base =
      applyWrites base (primFieldWrites p field value) buffer := by
  simp only [packPrimField, primFieldWrites]
  rw [applyWrites_append,
    show base + field.floatOffset + (wgslTypeInfo p).floatCount =
      base + (field.floatOffset + (wgslTypeInfo p).floatCount) from by omega,
    setZeros_eq]
  congr 1
  split
  · exact writeVecLoop_eq value base field.floatOffset (wgslTypeInfo p).floatCount 0 buffer
  · split <;> rfl

theorem packPrimArrayLoop_eq (p : WGSLPrimitiveType) (arrayData : Option DataValue)
    (floatOffset elementFloats base : Nat) :
    ∀ (count i : Nat) (buffer : List Word),
      packPrimArrayLoop p arrayData floatOffset elementFloats base i count buffer =
        applyWrites base (primArrayWrites p arrayData floatOffset elementFloats i count) buffer
  | 0, i, buffer => rfl
  | count + 1, i, buffer => by
    simp only [packPrimArrayLoop, primArrayWrites]
    rw [applyWrites_append, packPrimArrayLoop_eq p arrayData floatOffset elementFloats base count (i + 1)]
    congr 1
    split
    · rw [applyWrites_append,
        show base + (floatOffset + i * elementFloats) + (wgslTypeInfo p).floatCount =
          base + (floatOffset + i * elementFloats + (wgslTypeInfo p).floatCount) from by omega,
        setZeros_eq]
      congr 1
      split
      · exact writeVecLoop_eq _ base _ _ 0 buffer
      · split <;> rfl
    · exact setZeros_eq base elementFloats (floatOffset + i * elementFloats) buffer

theorem finalPaddingFill_eq (fields : List FieldLayout) (totalFloats : Nat)
    (buffer : List Word) (base : Nat) :
    finalPaddingFill fields totalFloats buffer base =
      applyWrites base (finalPadWrites fields totalFloats) buffer := by
  unfold finalPaddingFill finalPadWrites
  match fields.getLast? with
  | none => rfl
  | some lastField =>
    simp only
    split
    · rfl
    · exact setZeros_eq base _ _ buffer

theorem applyWrites_shift (base off : Nat) (ws : WriteList) (buffer : List Word) :
    applyWrites base (shiftWrites off ws) buffer = applyWrites (base + off) ws buffer := by
  induction ws generalizing buffer with
  | nil => rfl
  | cons iw rest ih =>
    simp only [shiftWrites, List.map_cons, applyWrites_cons]
    rw [show base + (off + iw.1) = base + off + iw.1 by omega]
    exact ih _

mutual
/-- `packData` applies exactly the writes of `layoutWrites`. -/
theorem packData_eq_writes (data : Option DataValue) (layout : StructLayout)
    (buffer : List Word) (base : Nat) (ctx : PackContext) :
    packData data layout buffer base ctx =
      (layoutWrites data layout ctx).map fun ws => applyWrites base ws buffer := by
  rw [packData, layoutWrites, packFieldsAux_eq_writes data layout.fields buffer base ctx]
  cases h : fieldsWrites data layout.fields ctx with
  | error e => rfl
  | ok ws =>
    show Except.ok (finalPaddingFill layout.fields layout.totalFloats
      (applyWrites base ws buffer) base) = _
    rw [finalPaddingFill_eq, ← applyWrites_append]
    rfl
termination_by (fieldsWeight layout.fields, 1, 0)
decreasing_by
  all_goals simp_wf
  all_goals simp only [Prod.lex_def, fieldsWeight, sumWeight_calculateStructLayout,
    List.map_cons, List.sum_cons]
  all_goals try rw [ht]
  all_goals try simp only [typeWeight]
  all_goals try simp
  all_goals omega

/-- `packFieldsAux` applies exactly the writes of `fieldsWrites`. -/
theorem packFieldsAux_eq_writes (data : Option DataValue) (fields : List FieldLayout)
    (buffer : List Word) (base : Nat) (ctx : PackContext) :
    packFieldsAux data fields buffer base ctx =
      (fieldsWrites data fields ctx).map fun ws => applyWrites base ws buffer := by
  cases fields with
  | nil =>
    rw [packFieldsAux, fieldsWrites]
    rfl
  | cons field rest =>
    rw [packFieldsAux, fieldsWrites]
    cases hl : lookupFieldValue data field.name ctx with
    | error e => rfl
    | ok value =>
      show (if field.isArray then _ else _) = ((if field.isArray then _ else _) : Except Unit WriteList).map _
      by_cases harr : field.isArray
      · rw [if_pos harr, if_pos harr]
        cases ht : field.type with
        | arrayStruct s _len =>
          dsimp only
          rw [packStructArrayLoop_eq_writes value (calculateStructLayout s) field.floatOffset
            (field.arrayElementFloats.getD 0) base ctx (field.arrayLength.getD 0) 0 buffer]
          cases hw : structArrayWrites value (calculateStructLayout s) field.floatOffset
              (field.arrayElementFloats.getD 0) ctx 0 (field.arrayLength.getD 0) with
          | error e => rfl
          | ok fw =>
            show packFieldsAux data rest (applyWrites base fw buffer) base ctx = _
            rw [packFieldsAux_eq_writes data rest (applyWrites base fw buffer) base ctx]
            cases hr : fieldsWrites data rest ctx with
            | error e => rfl
            | ok rw' =>
              show Except.ok _ = Except.ok _
              simp only [applyWrites_append]
        | arrayPrim p _len =>
          dsimp only
          rw [packPrimArrayLoop_eq p value field.floatOffset (field.arrayElementFloats.getD 0)
            base (field.arrayLength.getD 0) 0 buffer]
          rw [packFieldsAux_eq_writes data rest _ base ctx]
          cases hr : fieldsWrites data rest ctx with
          | error e => rfl
          | ok rw' =>
            show Except.ok _ = Except.ok _
            simp only [applyWrites_append]
        | prim p =>
          dsimp only
          exact packFieldsAux_eq_writes data rest buffer base ctx
        | struct s =>
          dsimp only
          exact packFieldsAux_eq_writes data rest buffer base ctx
      · rw [if_neg harr, if_neg harr]
        cases ht : field.type with
        | prim p =>
          dsimp only
          rw [packPrimField_eq, packFieldsAux_eq_writes data rest _ base ctx]
          cases hr : fieldsWrites data rest ctx with
          | error e => rfl
          | ok rw' =>
            show Except.ok _ = Except.ok _
            simp only [applyWrites_append]
        | struct s =>
          dsimp only
          rw [packData_eq_writes value (calculateStructLayout s) buffer (base + field.floatOffset) ctx]
          cases hw : layoutWrites value (calculateStructLayout s) ctx with
          | error e => rfl
          | ok nw =>
            show packFieldsAux data rest (applyWrites (base + field.floatOffset) nw buffer) base ctx = _
            rw [packFieldsAux_eq_writes data rest _ base ctx]
            cases hr : fieldsWrites data rest ctx with
            | error e => rfl
            | ok rw' =>
              show Except.ok _ = Except.ok _
              simp only [applyWrites_append, applyWrites_shift]
        | arrayStruct s _len =>
          dsimp only
          exact packFieldsAux_eq_writes data rest buffer base ctx
        | arrayPrim p _len =>
          dsimp only
          exact packFieldsAux_eq_writes data rest buffer base ctx
termination_by (fieldsWeight fields, 0, 0)
decreasing_by
  all_goals simp_wf
  all_goals simp only [Prod.lex_def, fieldsWeight, sumWeight_calculateStructLayout,
    List.map_cons, List.sum_cons]
  all_goals try rw [ht]
  all_goals try simp only [typeWeight]
  all_goals try simp
  all_goals omega

/-- `packStructArrayLoop` applies exactly the writes of `structArrayWrites`. -/
theorem packStructArrayLoop_eq_writes (arrayData : Option DataValue)
    (elementLayout : StructLayout) (floatOffset elementFloats base : Nat) (ctx : PackContext) :
    ∀ (count i : Nat) (buffer : List Word),
      packStructArrayLoop arrayData elementLayout floatOffset elementFloats base ctx
          i count buffer =
        (structArrayWrites arrayData elementLayout floatOffset elementFloats ctx i count).map
          fun ws => applyWrites base ws buffer
  | 0, i, buffer => by
    rw [packStructArrayLoop, structArrayWrites]
    rfl
  | count + 1, i, buffer => by
    rw [packStructArrayLoop, structArrayWrites]
    by_cases hs : suppliedIndex arrayData i
    · rw [if_pos hs, if_pos hs]
      rw [packData_eq_writes (jsIndex arrayData i) elementLayout buffer
        (base + (floatOffset + i * elementFloats)) ctx]
      cases hw : layoutWrites (jsIndex arrayData i) elementLayout ctx with
      | error e => rfl
      | ok ew =>
        dsimp only [Except.map]
        rw [packStructArrayLoop_eq_writes arrayData elementLayout floatOffset elementFloats
          base ctx count (i + 1) _]
        cases hr : structArrayWrites arrayData elementLayout floatOffset elementFloats ctx
            (i + 1) count with
        | error e => rfl
        | ok rw' =>
          show Except.ok _ = Except.ok _
          simp only [applyWrites_append, applyWrites_shift]
    · rw [if_neg hs, if_neg hs]
      rw [setZeros_eq base elementFloats (floatOffset + i * elementFloats) buffer]
      rw [packStructArrayLoop_eq_writes arrayData elementLayout floatOffset elementFloats
        base ctx count (i + 1) _]
      cases hr : structArrayWrites arrayData elementLayout floatOffset elementFloats ctx
          (i + 1) count with
      | error e => rfl
      | ok rw' =>
        show Except.ok _ = Except.ok _
        simp only [applyWrites_append]
termination_by count i buffer => (fieldsWeight elementLayout.fields, 2, count)
decreasing_by
  all_goals simp_wf
  all_goals simp only [Prod.lex_def, fieldsWeight, sumWeight_calculateStructLayout,
    List.map_cons, List.sum_cons]
  all_goals try rw [ht]
  all_goals try simp only [typeWeight]
  all_goals try simp
  all_goals omega
end

/-! ### Pointwise reading of applied write lists -/

/-- The last word written at relative index `i` by a write list, if any. -/
def lastWriteTo (ws : WriteList) (i : Nat) : Option Word :=
  ((ws.filter (fun iw => iw.1 == i)).getLast?).map (·.2)

theorem lastWriteTo_nil (i : Nat) : lastWriteTo [] i = none := rfl

theorem lastWriteTo_append (w1 w2 : WriteList) (i : Nat) :
    lastWriteTo (w1 ++ w2) i =
      match lastWriteTo w2 i with
      | some w => some w
      | none => lastWriteTo w1 i := by
  simp only [lastWriteTo, List.filter_append, List.getLast?_append]
  cases h : (w2.filter (fun iw => iw.1 == i)).getLast? with
  | none => simp [h]
  | some iw => simp [h]

theorem lastWriteTo_of_not_mem (ws : WriteList) (i : Nat)
    (h : ∀ iw ∈ ws, iw.1 ≠ i) : lastWriteTo ws i = none := by
  have : ws.filter (fun iw => iw.1 == i) = [] := by
    apply List.filter_eq_nil.mpr
    intro iw hiw
    simpa using h iw hiw
  simp [lastWriteTo, this]

theorem applyWrites_length (base : Nat) (ws : WriteList) (buffer : List Word) :
    (applyWrites base ws buffer).length = buffer.length := by
  induction ws generalizing buffer with
  | nil => rfl
  | cons iw rest ih => simp [applyWrites_cons, ih]

/-- Reading an applied write list at `base + i`: the last write at relative
index `i` if there is one (and the index is in range — out-of-range stores
are dropped), the original buffer otherwise. -/
theorem applyWrites_getElem (base : Nat) (ws : WriteList) (buffer : List Word) (i : Nat) :
    (applyWrites base ws buffer)[base + i]? =
      match lastWriteTo ws i with
      | some w => if base + i < buffer.length then some w else none
      | none => buffer[base + i]? := by
  induction ws generalizing buffer with
  | nil => cases h : buffer[base + i]? <;> simp [applyWrites, lastWriteTo, h]
  | cons iw rest ih =>
    rw [applyWrites_cons, ih]
    have hl : (buffer.set (base + iw.1) iw.2).length = buffer.length := by simp
    have hcons : lastWriteTo (iw :: rest) i =
        match lastWriteTo rest i with
        | some w => some w
        | none => if iw.1 == i then some iw.2 else none := by
      rw [show iw :: rest = [iw] ++ rest from rfl, lastWriteTo_append]
      cases h2 : lastWriteTo rest i with
      | some w => rfl
      | none =>
        cases hq : (iw.1 == i) with
        | true => simp [lastWriteTo, List.filter, hq]
        | false => simp [lastWriteTo, List.filter, hq]
    rw [hcons]
    cases h : lastWriteTo rest i with
    | some w => simp [hl]
    | none =>
      simp only [hl]
      cases hq : (iw.1 == i) with
      | true =>
        have : iw.1 = i := by simpa using hq
        subst this
        simp [List.getElem?_set_self]
        split <;> simp_all
      | false =>
        have hne : iw.1 ≠ i := by simpa using hq
        simp only [Bool.false_eq_true, if_false]
        rw [List.getElem?_set_ne (by omega)]

theorem applyWrites_getElem_below (base : Nat) (ws : WriteList) (buffer : List Word)
    (k : Nat) (hk : k < base) :
    (applyWrites base ws buffer)[k]? = buffer[k]? := by
  induction ws generalizing buffer with
  | nil => rfl
  | cons iw rest ih =>
    rw [applyWrites_cons, ih]
    rw [List.getElem?_set_ne (by omega)]

/-- Applying the same write list twice is the same as applying it once. -/
theorem applyWrites_idem (base : Nat) (ws : WriteList) (buffer : List Word) :
    applyWrites base ws (applyWrites base ws buffer) = applyWrites base ws buffer := by
  apply List.ext_getElem?
  intro k
  rcases Nat.lt_or_ge k base with hk | hk
  · rw [applyWrites_getElem_below _ _ _ _ hk, applyWrites_getElem_below _ _ _ _ hk]
  · obtain ⟨i, rfl⟩ : ∃ i, k = base + i := ⟨k - base, by omega⟩
    rw [applyWrites_getElem, applyWrites_getElem]
    cases h : lastWriteTo ws i with
    | some w => simp [applyWrites_length]
    | none => rfl

/-! ### Field canonicity and span ordering of compiled layouts -/

/-- A field record as the layout loop builds it: every derived component is
determined by its name, type and offsets. -/
def CanonField (fl : FieldLayout) : Prop :=
  fl = mkFieldLayout fl.name fl.type (resolveFieldInfo fl.type) fl.offset fl.floatOffset

theorem canonField_spec {fl : FieldLayout} (h : CanonField fl) :
    fl.size = typeSize fl.type ∧ fl.floatCount = typeFloats fl.type ∧
    fl.paddingAfter = vec3PaddingAfter fl.type ∧
    fl.isArray = (resolveFieldInfo fl.type).isArray ∧
    fl.arrayLength = (if (resolveFieldInfo fl.type).isArray then
      some (resolveFieldInfo fl.type).arrayLength else none) ∧
    fl.arrayElementSize = (if (resolveFieldInfo fl.type).isArray then
      some (resolveFieldInfo fl.type).arrayElementSize else none) ∧
    fl.arrayElementFloats = (if (resolveFieldInfo fl.type).isArray then
      some (resolveFieldInfo fl.type).arrayElementFloats else none) := by
  refine ⟨?_, ?_, ?_, ?_, ?_, ?_, ?_⟩ <;> (conv_lhs => rw [h]) <;> rfl

theorem layoutAux_canon : (s : SchemaDefinition) → ∀ o fo,
    ∀ fl ∈ (layoutFieldsAux s o fo).1, CanonField fl
  | .nil => by intro o fo fl hfl; simp [layoutFieldsAux] at hfl
  | .cons name t rest => by
    intro o fo fl hfl
    simp only [layoutFieldsAux, List.mem_cons] at hfl
    rcases hfl with hfl | hfl
    · subst hfl; rfl
    · exact layoutAux_canon rest _ _ fl hfl

theorem calc_canon (s : SchemaDefinition) :
    ∀ fl ∈ (calculateStructLayout s).fields, CanonField fl := by
  intro fl hfl
  exact layoutAux_canon s 0 0 fl hfl

/-- Spans of successive fields do not overlap: every later field starts at
or after the end of each earlier field's span. -/
def SpanSorted : List FieldLayout → Prop
  | [] => True
  | fl :: rest => (∀ fl' ∈ rest, fieldSpanEnd fl ≤ fl'.floatOffset) ∧ SpanSorted rest

theorem layoutAux_offsets_lb : (s : SchemaDefinition) → ∀ o fo, o = 4 * fo →
    ∀ fl ∈ (layoutFieldsAux s o fo).1, fo ≤ fl.floatOffset
  | .nil => by intro o fo h fl hfl; simp [layoutFieldsAux] at hfl
  | .cons name t rest => by
    intro o fo h fl hfl
    simp only [layoutFieldsAux, List.mem_cons] at hfl
    have hsz := typeSize_four_mul t
    have hpad := padBytesFor_spec o (typeAlign t) (typeAlign_cases t)
    rcases hfl with hfl | hfl
    · subst hfl
      simp only [mkFieldLayout]
      omega
    · have := layoutAux_offsets_lb rest _ _
        (by simp only [typeSize, typeFloats, typeAlign] at hsz hpad ⊢; omega) fl hfl
      simp only [typeSize, typeFloats, typeAlign] at hsz hpad this ⊢
      omega

theorem layoutAux_spanSorted : (s : SchemaDefinition) → ∀ o fo, o = 4 * fo →
    SpanSorted (layoutFieldsAux s o fo).1
  | .nil => by intro o fo h; simp [layoutFieldsAux, SpanSorted]
  | .cons name t rest => by
    intro o fo h
    simp only [layoutFieldsAux, SpanSorted]
    have hsz := typeSize_four_mul t
    have hpad := padBytesFor_spec o (typeAlign t) (typeAlign_cases t)
    have hinv : o + padBytesFor o (resolveFieldInfo t).typeInfo.alignment +
        (resolveFieldInfo t).typeInfo.size + vec3PaddingAfter t * 4 =
        4 * (fo + padBytesFor o (resolveFieldInfo t).typeInfo.alignment / 4 +
          (resolveFieldInfo t).typeInfo.floatCount + vec3PaddingAfter t) := by
      simp only [typeSize, typeFloats, typeAlign] at hsz hpad ⊢
      omega
    refine ⟨?_, layoutAux_spanSorted rest _ _ hinv⟩
    intro fl' hfl'
    have := layoutAux_offsets_lb rest _ _ hinv fl' hfl'
    simp only [fieldSpanEnd, mkFieldLayout]
    omega

theorem calc_spanSorted (s : SchemaDefinition) :
    SpanSorted (calculateStructLayout s).fields :=
  layoutAux_spanSorted s 0 0 rfl

/-! ### Single-field writes and the per-field decomposition -/

/-- The writes a single field contributes, by field kind (the bodies of the
`fieldsWrites` branches). -/
def singleFieldWrites (field : FieldLayout) (value : Option DataValue)
    (ctx : PackContext) : Except Unit WriteList :=
  if field.isArray then
    match field.type with
    | .arrayStruct s _len =>
      structArrayWrites value (calculateStructLayout s) field.floatOffset
        (field.arrayElementFloats.getD 0) ctx 0 (field.arrayLength.getD 0)
    | .arrayPrim p _len =>
      .ok (primArrayWrites p value field.floatOffset (field.arrayElementFloats.getD 0)
        0 (field.arrayLength.getD 0))
    | _ => .ok []
  else
    match field.type with
    | .prim p => .ok (primFieldWrites p field value)
    | .struct s =>
      (layoutWrites value (calculateStructLayout s) ctx).map (shiftWrites field.floatOffset)
    | _ => .ok []

/-- `fieldsWrites` on a cons decomposes into the head field's writes
followed by the rest. -/
theorem fieldsWrites_cons (data : Option DataValue) (field : FieldLayout)
    (rest : List FieldLayout) (ctx : PackContext) :
    fieldsWrites data (field :: rest) ctx =
      match lookupFieldValue data field.name ctx with
      | .error e => .error e
      | .ok value =>
        match singleFieldWrites field value ctx with
        | .error e => .error e
        | .ok fw => (fieldsWrites data rest ctx).map (fw ++ ·) := by
  rw [fieldsWrites]
  cases hl : lookupFieldValue data field.name ctx with
  | error e => rfl
  | ok value =>
    simp only [singleFieldWrites]
    by_cases harr : field.isArray
    · rw [if_pos harr, if_pos harr]
      cases ht : field.type with
      | arrayStruct s _len => dsimp only
      | arrayPrim p _len => rfl
      | prim p =>
        dsimp only
        cases hr : fieldsWrites data rest ctx with
        | error e => rfl
        | ok rw' => rfl
      | struct s =>
        dsimp only
        cases hr : fieldsWrites data rest ctx with
        | error e => rfl
        | ok rw' => rfl
    · rw [if_neg harr, if_neg harr]
      cases ht : field.type with
      | prim p => rfl
      | struct s =>
        dsimp only
        cases hw : layoutWrites value (calculateStructLayout s) ctx with
        | error e => rfl
        | ok nw => rfl
      | arrayStruct s _len =>
        dsimp only
        cases hr : fieldsWrites data rest ctx with
        | error e => rfl
        | ok rw' => rfl
      | arrayPrim p _len =>
        dsimp only
        cases hr : fieldsWrites data rest ctx with
        | error e => rfl
        | ok rw' => rfl

/-! ### Write extents -/

theorem zerosWrites_extent (start count : Nat) :
    ∀ iw ∈ zerosWrites start count, start ≤ iw.1 ∧ iw.1 < start + count ∧ iw.2 = zeroWord := by
  intro iw hiw
  simp only [zerosWrites, List.mem_map, List.mem_range] at hiw
  obtain ⟨j, hj, rfl⟩ := hiw
  exact ⟨by omega, by omega, rfl⟩

theorem vecWrites_extent (value : Option DataValue) (start idx count : Nat) :
    ∀ iw ∈ vecWrites value start idx count,
      start + idx ≤ iw.1 ∧ iw.1 < start + idx + count := by
  intro iw hiw
  simp only [vecWrites, List.mem_map, List.mem_range] at hiw
  obtain ⟨j, hj, rfl⟩ := hiw
  exact ⟨by omega, by omega⟩

theorem wgslTypeInfo_floatCount_pos (p : WGSLPrimitiveType) :
    0 < (wgslTypeInfo p).floatCount := by
  cases p <;> simp [wgslTypeInfo]

theorem primFieldWrites_extent (p : WGSLPrimitiveType) (field : FieldLayout)
    (value : Option DataValue) :
    ∀ iw ∈ primFieldWrites p field value,
      field.floatOffset ≤ iw.1 ∧
        iw.1 < field.floatOffset + (wgslTypeInfo p).floatCount + field.paddingAfter := by
  intro iw hiw
  have hfc := wgslTypeInfo_floatCount_pos p
  simp only [primFieldWrites, List.mem_append] at hiw
  rcases hiw with hiw | hiw
  · split at hiw
    · have := vecWrites_extent value field.floatOffset 0 (wgslTypeInfo p).floatCount iw hiw
      omega
    · split at hiw <;>
      · simp only [List.mem_singleton] at hiw
        subst hiw
        simp only
        omega
  · have := zerosWrites_extent _ _ iw hiw
    omega

theorem primArrayWrites_extent (p : WGSLPrimitiveType) (arrayData : Option DataValue)
    (floatOffset elementFloats : Nat) (hfc : (wgslTypeInfo p).floatCount ≤ elementFloats) :
    ∀ (count i : Nat), ∀ iw ∈ primArrayWrites p arrayData floatOffset elementFloats i count,
      floatOffset + i * elementFloats ≤ iw.1 ∧
        iw.1 < floatOffset + (i + count) * elementFloats
  | 0, i => by intro iw hiw; simp [primArrayWrites] at hiw
  | count + 1, i => by
    intro iw hiw
    have hfcp := wgslTypeInfo_floatCount_pos p
    have h3 : floatOffset + i * elementFloats + elementFloats =
        floatOffset + (i + 1) * elementFloats := by ring
    have h4 : (i + 1) * elementFloats ≤ (i + (count + 1)) * elementFloats :=
      Nat.mul_le_mul_right _ (by omega)
    have h5 : i * elementFloats ≤ (i + 1) * elementFloats :=
      Nat.mul_le_mul_right _ (by omega)
    rw [primArrayWrites] at hiw
    simp only [List.mem_append] at hiw
    rcases hiw with hiw | hiw
    · split at hiw
      · simp only [List.mem_append] at hiw
        rcases hiw with hiw | hiw
        · split at hiw
          · have := vecWrites_extent _ _ 0 _ iw hiw
            omega
          · split at hiw <;>
            · simp only [List.mem_singleton] at hiw
              subst hiw
              simp only
              omega
        · have := zerosWrites_extent _ _ iw hiw
          omega
      · have := zerosWrites_extent _ _ iw hiw
        omega
    · have := primArrayWrites_extent p arrayData floatOffset elementFloats hfc count (i + 1)
        iw hiw
      have h6 : (i + 1 + count) * elementFloats = (i + (count + 1)) * elementFloats := by
        ring_nf
      omega

theorem arrayStruct_elemFloats_ge (s : SchemaDefinition) :
    (calculateStructLayout s).totalFloats ≤
      ((calculateStructLayout s).totalSize + 15) / 16 * 16 / 4 := by
  have := calc_totalSize_four_mul s
  omega

theorem wgslTypeInfo_floatCount_le_four (p : WGSLPrimitiveType) :
    (wgslTypeInfo p).floatCount ≤ 4 := by
  cases p <;> simp [wgslTypeInfo]

/-- Inversion of a successful `fieldsWrites` on a cons cell. -/
theorem fieldsWrites_cons_ok {data : Option DataValue} {field : FieldLayout}
    {rest : List FieldLayout} {ctx : PackContext} {ws : WriteList}
    (h : fieldsWrites data (field :: rest) ctx = .ok ws) :
    ∃ value fw rw', lookupFieldValue data field.name ctx = .ok value ∧
      singleFieldWrites field value ctx = .ok fw ∧
      fieldsWrites data rest ctx = .ok rw' ∧ ws = fw ++ rw' := by
  rw [fieldsWrites_cons] at h
  cases hl : lookupFieldValue data field.name ctx with
  | error e => rw [hl] at h; simp at h
  | ok value =>
    rw [hl] at h
    dsimp only at h
    cases hsw : singleFieldWrites field value ctx with
    | error e => rw [hsw] at h; simp at h
    | ok fw =>
      rw [hsw] at h
      dsimp only at h
      cases hr : fieldsWrites data rest ctx with
      | error e => rw [hr] at h; simp [Except.map] at h
      | ok rw' =>
        rw [hr] at h
        simp only [Except.map, Except.ok.injEq] at h
        exact ⟨value, fw, rw', rfl, hsw, rfl, h.symm⟩

/-- Inversion of a successful `layoutWrites`. -/
theorem layoutWrites_ok {data : Option DataValue} {layout : StructLayout}
    {ctx : PackContext} {ws : WriteList} (h : layoutWrites data layout ctx = .ok ws) :
    ∃ fws, fieldsWrites data layout.fields ctx = .ok fws ∧
      ws = fws ++ finalPadWrites layout.fields layout.totalFloats := by
  rw [layoutWrites] at h
  cases hf : fieldsWrites data layout.fields ctx with
  | error e => rw [hf] at h; simp at h
  | ok fws =>
    rw [hf] at h
    simp only [Except.ok.injEq] at h
    exact ⟨fws, rfl, h.symm⟩

/-- Inversion of one step of a successful `structArrayWrites`. -/
theorem structArrayWrites_succ_ok {arrayData : Option DataValue}
    {elementLayout : StructLayout} {floatOffset elementFloats : Nat} {ctx : PackContext}
    {i count : Nat} {ws : WriteList}
    (h : structArrayWrites arrayData elementLayout floatOffset elementFloats ctx
      i (count + 1) = .ok ws) :
    ∃ rws, structArrayWrites arrayData elementLayout floatOffset elementFloats ctx
        (i + 1) count = .ok rws ∧
      ((suppliedIndex arrayData i = true ∧ ∃ ew,
          layoutWrites (jsIndex arrayData i) elementLayout ctx = .ok ew ∧
          ws = shiftWrites (floatOffset + i * elementFloats) ew ++ rws) ∨
        (suppliedIndex arrayData i = false ∧
          ws = zerosWrites (floatOffset + i * elementFloats) elementFloats ++ rws)) := by
  rw [structArrayWrites] at h
  by_cases hs : suppliedIndex arrayData i
  · rw [if_pos hs] at h
    cases hw : layoutWrites (jsIndex arrayData i) elementLayout ctx with
    | error e => rw [hw] at h; simp at h
    | ok ew =>
      rw [hw] at h
      dsimp only at h
      cases hr : structArrayWrites arrayData elementLayout floatOffset elementFloats ctx
          (i + 1) count with
      | error e => rw [hr] at h; simp [Except.map] at h
      | ok rws =>
        rw [hr] at h
        simp only [Except.map, Except.ok.injEq] at h
        exact ⟨rws, rfl, Or.inl ⟨hs, ew, rfl, h.symm⟩⟩
  · rw [if_neg hs] at h
    cases hr : structArrayWrites arrayData elementLayout floatOffset elementFloats ctx
        (i + 1) count with
    | error e => rw [hr] at h; simp [Except.map] at h
    | ok rws =>
      rw [hr] at h
      simp only [Except.map, Except.ok.injEq] at h
      exact ⟨rws, rfl, Or.inr ⟨by simpa using hs, h.symm⟩⟩

theorem mem_of_getLast?_eq {α : Type} {l : List α} {a : α} (h : l.getLast? = some a) :
    a ∈ l := by
  obtain ⟨hne, rfl⟩ := List.mem_getLast?_eq_getLast (show a ∈ l.getLast? by simp [h])
  exact List.getLast_mem hne

theorem singleFieldWrites_prim {field : FieldLayout} (value : Option DataValue)
    (ctx : PackContext) {p : WGSLPrimitiveType}
    (harr : field.isArray = false) (ht : field.type = .prim p) :
    singleFieldWrites field value ctx = .ok (primFieldWrites p field value) := by
  rw [singleFieldWrites, if_neg (by simp [harr]), ht]

theorem singleFieldWrites_struct {field : FieldLayout} (value : Option DataValue)
    (ctx : PackContext) {s : SchemaDefinition}
    (harr : field.isArray = false) (ht : field.type = .struct s) :
    singleFieldWrites field value ctx =
      (layoutWrites value (calculateStructLayout s) ctx).map
        (shiftWrites field.floatOffset) := by
  rw [singleFieldWrites, if_neg (by simp [harr]), ht]

theorem singleFieldWrites_arrayStruct {field : FieldLayout} (value : Option DataValue)
    (ctx : PackContext) {s : SchemaDefinition} {len : Nat}
    (harr : field.isArray = true) (ht : field.type = .arrayStruct s len) :
    singleFieldWrites field value ctx =
      structArrayWrites value (calculateStructLayout s) field.floatOffset
        (field.arrayElementFloats.getD 0) ctx 0 (field.arrayLength.getD 0) := by
  rw [singleFieldWrites, if_pos harr, ht]

theorem singleFieldWrites_arrayPrim {field : FieldLayout} (value : Option DataValue)
    (ctx : PackContext) {p : WGSLPrimitiveType} {len : Nat}
    (harr : field.isArray = true) (ht : field.type = .arrayPrim p len) :
    singleFieldWrites field value ctx =
      .ok (primArrayWrites p value field.floatOffset (field.arrayElementFloats.getD 0)
        0 (field.arrayLength.getD 0)) := by
  rw [singleFieldWrites, if_pos harr, ht]

theorem finalPadWrites_of_getLast {fields : List FieldLayout} {lastField : FieldLayout}
    (totalFloats : Nat) (h : fields.getLast? = some lastField) :
    finalPadWrites fields totalFloats =
      if lastField.isArray then []
      else zerosWrites (fieldSpanEnd lastField) (totalFloats - fieldSpanEnd lastField) := by
  rw [finalPadWrites, h]

theorem finalPadWrites_of_getLast_none {fields : List FieldLayout}
    (totalFloats : Nat) (h : fields.getLast? = none) :
    finalPadWrites fields totalFloats = [] := by
  rw [finalPadWrites, h]

mutual
/-- Every write of a compiled layout lands below `totalFloats`. -/
theorem layoutWrites_extent (data : Option DataValue) (s : SchemaDefinition)
    (ctx : PackContext) (ws : WriteList)
    (h : layoutWrites data (calculateStructLayout s) ctx = .ok ws) :
    ∀ iw ∈ ws, iw.1 < (calculateStructLayout s).totalFloats := by
  intro iw hiw
  obtain ⟨fws, hf, rfl⟩ := layoutWrites_ok h
  simp only [List.mem_append] at hiw
  rcases hiw with hiw | hiw
  · obtain ⟨fl, hfl, _, h2⟩ := fieldsWrites_extent data (calculateStructLayout s).fields ctx
      fws hf (calc_canon s) iw hiw
    exact lt_of_lt_of_le h2 (calc_span_le s fl hfl)
  · cases hlast : (calculateStructLayout s).fields.getLast? with
    | none => rw [finalPadWrites_of_getLast_none _ hlast] at hiw; simp at hiw
    | some lastField =>
      rw [finalPadWrites_of_getLast _ hlast] at hiw
      by_cases hla : lastField.isArray
      · rw [if_pos hla] at hiw; simp at hiw
      · rw [if_neg hla] at hiw
        have hspan := calc_span_le s lastField (mem_of_getLast?_eq hlast)
        have := zerosWrites_extent _ _ iw hiw
        omega
termination_by (fieldsWeight (calculateStructLayout s).fields, 1, 0)
decreasing_by
  all_goals simp_wf
  all_goals simp only [Prod.lex_def, fieldsWeight, sumWeight_calculateStructLayout,
    List.map_cons, List.sum_cons]
  all_goals try simp
  all_goals omega

/-- Every write of a field list lands inside some listed field's span. -/
theorem fieldsWrites_extent (data : Option DataValue) :
    ∀ (fields : List FieldLayout) (ctx : PackContext) (ws : WriteList),
      fieldsWrites data fields ctx = .ok ws →
      (∀ fl ∈ fields, CanonField fl) →
      ∀ iw ∈ ws, ∃ fl ∈ fields, fl.floatOffset ≤ iw.1 ∧ iw.1 < fieldSpanEnd fl
  | [], ctx, ws => by
    intro h _ iw hiw
    rw [fieldsWrites] at h
    simp only [Except.ok.injEq] at h
    subst h
    simp at hiw
  | field :: rest, ctx, ws => by
    intro h hcanon iw hiw
    obtain ⟨value, fw, rw', hl, hsw, hr, rfl⟩ := fieldsWrites_cons_ok h
    simp only [List.mem_append] at hiw
    rcases hiw with hiw | hiw
    · have := singleFieldWrites_extent field value ctx fw hsw
        (hcanon field (by simp)) iw hiw
      exact ⟨field, by simp, this⟩
    · obtain ⟨fl, hfl, hb⟩ := fieldsWrites_extent data rest ctx rw' hr
        (fun fl hfl => hcanon fl (by simp [hfl])) iw hiw
      exact ⟨fl, by simp [hfl], hb⟩
termination_by fields => (fieldsWeight fields, 0, 0)
decreasing_by
  all_goals simp_wf
  all_goals simp only [Prod.lex_def, fieldsWeight, sumWeight_calculateStructLayout,
    List.map_cons, List.sum_cons]
  all_goals try simp
  all_goals omega

/-- Every write of a single field lands inside that field's span. -/
theorem singleFieldWrites_extent (field : FieldLayout) (value : Option DataValue)
    (ctx : PackContext) (fw : WriteList)
    (h : singleFieldWrites field value ctx = .ok fw) (hc : CanonField field) :
    ∀ iw ∈ fw, field.floatOffset ≤ iw.1 ∧ iw.1 < fieldSpanEnd field := by
  intro iw hiw
  obtain ⟨hsize, hfc, hpad, hisarr, hlen, hes, hef⟩ := canonField_spec hc
  cases ht : field.type with
  | arrayStruct s' _len =>
    rw [singleFieldWrites_arrayStruct value ctx (by rw [hisarr, ht]; rfl) ht] at h
    have hef0 : field.arrayElementFloats.getD 0 =
        ((calculateStructLayout s').totalSize + 15) / 16 * 16 / 4 := by
      rw [hef, ht]
      simp [resolveFieldInfo, finishLayout, calculateStructLayout]
    have hlen0 : field.arrayLength.getD 0 = _len := by
      rw [hlen, ht]; simp [resolveFieldInfo]
    have hbound := structArrayWrites_extent value s' field.floatOffset
      (field.arrayElementFloats.getD 0) ctx
      (by rw [hef0]; exact arrayStruct_elemFloats_ge s')
      (field.arrayLength.getD 0) 0 fw h iw hiw
    have hfcv : field.floatCount =
        field.arrayElementFloats.getD 0 * field.arrayLength.getD 0 := by
      rw [hfc, ht, hef0, hlen0]
      simp [typeFloats, resolveFieldInfo, finishLayout, calculateStructLayout]
    simp only [fieldSpanEnd]
    have hm : (0 + field.arrayLength.getD 0) * field.arrayElementFloats.getD 0 =
      field.arrayElementFloats.getD 0 * field.arrayLength.getD 0 := by ring
    omega
  | arrayPrim p _len =>
    rw [singleFieldWrites_arrayPrim value ctx (by rw [hisarr, ht]; rfl) ht] at h
    simp only [Except.ok.injEq] at h
    subst h
    have hef0 : field.arrayElementFloats.getD 0 = max 16 (wgslTypeInfo p).size / 4 := by
      rw [hef, ht]; simp [resolveFieldInfo]
    have hlen0 : field.arrayLength.getD 0 = _len := by
      rw [hlen, ht]; simp [resolveFieldInfo]
    have hfcle : (wgslTypeInfo p).floatCount ≤ field.arrayElementFloats.getD 0 := by
      rw [hef0]
      cases p <;> simp [wgslTypeInfo]
    have hbound := primArrayWrites_extent p value field.floatOffset
      (field.arrayElementFloats.getD 0) hfcle (field.arrayLength.getD 0) 0 iw hiw
    have hfcv : field.floatCount =
        field.arrayElementFloats.getD 0 * field.arrayLength.getD 0 := by
      rw [hfc, ht, hef0, hlen0]
      simp [typeFloats, resolveFieldInfo]
    simp only [fieldSpanEnd]
    have hm : (0 + field.arrayLength.getD 0) * field.arrayElementFloats.getD 0 =
      field.arrayElementFloats.getD 0 * field.arrayLength.getD 0 := by ring
    omega
  | prim p =>
    rw [singleFieldWrites_prim value ctx (by rw [hisarr, ht]; rfl) ht] at h
    simp only [Except.ok.injEq] at h
    subst h
    have := primFieldWrites_extent p field value iw hiw
    have hfcv : field.floatCount = (wgslTypeInfo p).floatCount := by
      rw [hfc, ht]; rfl
    simp only [fieldSpanEnd]
    omega
  | struct s' =>
    rw [singleFieldWrites_struct value ctx (by rw [hisarr, ht]; rfl) ht] at h
    cases hw : layoutWrites value (calculateStructLayout s') ctx with
    | error e => rw [hw] at h; simp [Except.map] at h
    | ok nw =>
      rw [hw] at h
      simp only [Except.map, Except.ok.injEq] at h
      subst h
      simp only [shiftWrites, List.mem_map] at hiw
      obtain ⟨jw, hjw, rfl⟩ := hiw
      have := layoutWrites_extent value s' ctx nw hw jw hjw
      have hfcv : field.floatCount = (calculateStructLayout s').totalFloats := by
        rw [hfc, ht]
        simp [typeFloats, resolveFieldInfo, finishLayout, calculateStructLayout]
      simp only [fieldSpanEnd]
      omega
termination_by (typeWeight field.type, 3, 0)
decreasing_by
  all_goals simp_wf
  all_goals simp only [Prod.lex_def, fieldsWeight, sumWeight_calculateStructLayout,
    List.map_cons, List.sum_cons]
  all_goals try rw [ht]
  all_goals try simp only [typeWeight]
  all_goals try simp
  all_goals omega

/-- Every write of a struct-array loop lands inside the remaining elements'
strides. -/
theorem structArrayWrites_extent (arrayData : Option DataValue) (s' : SchemaDefinition)
    (floatOffset elementFloats : Nat) (ctx : PackContext)
    (hef : (calculateStructLayout s').totalFloats ≤ elementFloats) :
    ∀ (count i : Nat) (ws : WriteList),
      structArrayWrites arrayData (calculateStructLayout s') floatOffset elementFloats ctx
        i count = .ok ws →
      ∀ iw ∈ ws, floatOffset + i * elementFloats ≤ iw.1 ∧
        iw.1 < floatOffset + (i + count) * elementFloats
  | 0, i, ws => by
    intro h iw hiw
    rw [structArrayWrites] at h
    simp only [Except.ok.injEq] at h
    subst h
    simp at hiw
  | count + 1, i, ws => by
    intro h iw hiw
    have h3 : floatOffset + i * elementFloats + elementFloats =
        floatOffset + (i + 1) * elementFloats := by ring
    have h4 : (i + 1) * elementFloats ≤ (i + (count + 1)) * elementFloats :=
      Nat.mul_le_mul_right _ (by omega)
    have h5 : i * elementFloats ≤ (i + 1) * elementFloats :=
      Nat.mul_le_mul_right _ (by omega)
    have h6 : (i + 1 + count) * elementFloats = (i + (count + 1)) * elementFloats := by
      ring_nf
    obtain ⟨rws, hr, hcase⟩ := structArrayWrites_succ_ok h
    have hrec := structArrayWrites_extent arrayData s' floatOffset elementFloats ctx hef
      count (i + 1) rws hr
    rcases hcase with ⟨hs, ew, hw, rfl⟩ | ⟨hs, rfl⟩
    · simp only [List.mem_append] at hiw
      rcases hiw with hiw | hiw
      · simp only [shiftWrites, List.mem_map] at hiw
        obtain ⟨jw, hjw, rfl⟩ := hiw
        have := layoutWrites_extent (jsIndex arrayData i) s' ctx ew hw jw hjw
        simp only
        omega
      · have := hrec iw hiw
        omega
    · simp only [List.mem_append] at hiw
      rcases hiw with hiw | hiw
      · have := zerosWrites_extent _ _ iw hiw
        omega
      · have := hrec iw hiw
        omega
termination_by count i ws => (fieldsWeight (calculateStructLayout s').fields, 2, count)
decreasing_by
  all_goals simp_wf
  all_goals simp only [Prod.lex_def, fieldsWeight, sumWeight_calculateStructLayout,
    List.map_cons, List.sum_cons]
  all_goals try simp
  all_goals omega
end

theorem fieldSpanEnd_ge_floatOffset (fl : FieldLayout) :
    fl.floatOffset ≤ fieldSpanEnd fl := by
  simp only [fieldSpanEnd]; omega

theorem spanSorted_le_last : ∀ (fields : List FieldLayout) (lf : FieldLayout),
    SpanSorted fields → fields.getLast? = some lf →
    ∀ fl ∈ fields, fieldSpanEnd fl ≤ fieldSpanEnd lf
  | [], lf => by intro _ h; simp at h
  | [x], lf => by
    intro hs h fl hfl
    simp only [List.getLast?_singleton, Option.some.injEq] at h
    simp only [List.mem_singleton] at hfl
    subst h; subst hfl
    exact le_refl _
  | x :: y :: rest, lf => by
    intro hs h fl hfl
    have h' : (y :: rest).getLast? = some lf := by
      rwa [List.getLast?_cons_cons] at h
    simp only [List.mem_cons] at hfl
    rcases hfl with hfl | hfl
    · subst hfl
      have hlf_mem : lf ∈ y :: rest := mem_of_getLast?_eq h'
      have h1 := hs.1 lf hlf_mem
      have h2 := fieldSpanEnd_ge_floatOffset lf
      omega
    · exact spanSorted_le_last (y :: rest) lf hs.2 h' fl (List.mem_cons.mpr hfl)

/-- Reading the writes of a field list at a position inside field `i`'s
span reduces to reading that single field's writes. -/
theorem fieldsWrites_lastWrite (data : Option DataValue) :
    ∀ (fields : List FieldLayout) (ctx : PackContext) (ws : WriteList),
      fieldsWrites data fields ctx = .ok ws →
      (∀ fl ∈ fields, CanonField fl) → SpanSorted fields →
      ∀ (i : Nat) (fl : FieldLayout), fields[i]? = some fl →
      ∀ k, fl.floatOffset ≤ k → k < fieldSpanEnd fl →
      ∃ value fw, lookupFieldValue data fl.name ctx = .ok value ∧
        singleFieldWrites fl value ctx = .ok fw ∧
        lastWriteTo ws k = lastWriteTo fw k
  | [], ctx, ws => by
    intro _ _ _ i fl hfl
    simp at hfl
  | field :: rest, ctx, ws => by
    intro h hcanon hsorted i fl hfl k hk1 hk2
    obtain ⟨value, fw, rw', hl, hsw, hr, rfl⟩ := fieldsWrites_cons_ok h
    cases i with
    | zero =>
      simp only [List.getElem?_cons_zero, Option.some.injEq] at hfl
      subst hfl
      have hnone : lastWriteTo rw' k = none := by
        apply lastWriteTo_of_not_mem
        intro iw hiw
        obtain ⟨fl', hfl', hb1, _⟩ := fieldsWrites_extent data rest ctx rw' hr
          (fun g hg => hcanon g (by simp [hg])) iw hiw
        have := hsorted.1 fl' hfl'
        omega
      rw [lastWriteTo_append, hnone]
      exact ⟨value, fw, hl, hsw, rfl⟩
    | succ j =>
      simp only [List.getElem?_cons_succ] at hfl
      have hmem : fl ∈ rest := by
        have := List.getElem?_eq_some.mp hfl
        obtain ⟨hj, rfl⟩ := this
        exact List.getElem_mem _
      obtain ⟨value', fw', hl', hsw', heq⟩ := fieldsWrites_lastWrite data rest ctx rw' hr
        (fun g hg => hcanon g (by simp [hg])) hsorted.2 j fl hfl k hk1 hk2
      refine ⟨value', fw', hl', hsw', ?_⟩
      rw [lastWriteTo_append]
      cases hlw : lastWriteTo rw' k with
      | some w => rw [hlw] at heq; exact heq
      | none =>
        rw [hlw] at heq
        have hfw_none : lastWriteTo fw k = none := by
          apply lastWriteTo_of_not_mem
          intro iw hiw
          have hb := singleFieldWrites_extent field value ctx fw hsw
            (hcanon field (by simp)) iw hiw
          have := hsorted.1 fl hmem
          omega
        rw [hfw_none]
        exact heq

/-- Reading a compiled layout's writes at a position inside field `i`'s span
reduces to that field's writes. -/
theorem layoutWrites_lastWrite (data : Option DataValue) (s : SchemaDefinition)
    (ctx : PackContext) (ws : WriteList)
    (h : layoutWrites data (calculateStructLayout s) ctx = .ok ws)
    (i : Nat) (fl : FieldLayout) (hfl : (calculateStructLayout s).fields[i]? = some fl)
    (k : Nat) (hk1 : fl.floatOffset ≤ k) (hk2 : k < fieldSpanEnd fl) :
    ∃ value fw, lookupFieldValue data fl.name ctx = .ok value ∧
      singleFieldWrites fl value ctx = .ok fw ∧
      lastWriteTo ws k = lastWriteTo fw k := by
  obtain ⟨fws, hf, rfl⟩ := layoutWrites_ok h
  have hmem : fl ∈ (calculateStructLayout s).fields := by
    have := List.getElem?_eq_some.mp hfl
    obtain ⟨hj, rfl⟩ := this
    exact List.getElem_mem _
  have hpad_none : lastWriteTo
      (finalPadWrites (calculateStructLayout s).fields (calculateStructLayout s).totalFloats)
      k = none := by
    apply lastWriteTo_of_not_mem
    intro iw hiw
    cases hlast : (calculateStructLayout s).fields.getLast? with
    | none => rw [finalPadWrites_of_getLast_none _ hlast] at hiw; simp at hiw
    | some lastField =>
      rw [finalPadWrites_of_getLast _ hlast] at hiw
      by_cases hla : lastField.isArray
      · rw [if_pos hla] at hiw; simp at hiw
      · rw [if_neg hla] at hiw
        have hb := zerosWrites_extent _ _ iw hiw
        have := spanSorted_le_last (calculateStructLayout s).fields lastField
          (calc_spanSorted s) hlast fl hmem
        omega
  rw [lastWriteTo_append, hpad_none]
  exact fieldsWrites_lastWrite data (calculateStructLayout s).fields ctx fws hf
    (calc_canon s) (calc_spanSorted s) i fl hfl k hk1 hk2

theorem lastWriteTo_cons (iw : Nat × Word) (ws : WriteList) (i : Nat) :
    lastWriteTo (iw :: ws) i =
      match lastWriteTo ws i with
      | some w => some w
      | none => if iw.1 == i then some iw.2 else none := by
  rw [show iw :: ws = [iw] ++ ws from rfl, lastWriteTo_append]
  cases h2 : lastWriteTo ws i with
  | some w => rfl
  | none =>
    cases hq : (iw.1 == i) with
    | true => simp [lastWriteTo, List.filter, hq]
    | false => simp [lastWriteTo, List.filter, hq]

theorem lastWriteTo_zerosWrites : ∀ (count start j : Nat), j < count →
    lastWriteTo (zerosWrites start count) (start + j) = some zeroWord
  | 0, start, j => by omega
  | count + 1, start, j => by
    intro hj
    rw [zerosWrites_succ_cons, lastWriteTo_cons]
    cases j with
    | zero =>
      have hnone : lastWriteTo (zerosWrites (start + 1) count) (start + 0) = none := by
        apply lastWriteTo_of_not_mem
        intro iw hiw
        have := zerosWrites_extent _ _ iw hiw
        omega
      rw [hnone]
      simp
    | succ j' =>
      have : start + (j' + 1) = (start + 1) + j' := by omega
      rw [this, lastWriteTo_zerosWrites count (start + 1) j' (by omega)]

theorem lastWriteTo_vecWrites (value : Option DataValue) (start : Nat) :
    ∀ (count idx j : Nat), j < count →
      lastWriteTo (vecWrites value start idx count) (start + idx + j) =
        some (f32Store (jsIndex value (idx + j)))
  | 0, idx, j => by omega
  | count + 1, idx, j => by
    intro hj
    rw [vecWrites_succ_cons, lastWriteTo_cons]
    cases j with
    | zero =>
      have hnone : lastWriteTo (vecWrites value start (idx + 1) count)
          (start + idx + 0) = none := by
        apply lastWriteTo_of_not_mem
        intro iw hiw
        have := vecWrites_extent value start (idx + 1) count iw hiw
        omega
      rw [hnone]
      simp
    | succ j' =>
      have h1 : start + idx + (j' + 1) = start + (idx + 1) + j' := by omega
      have h2 : idx + (j' + 1) = (idx + 1) + j' := by omega
      rw [h1, h2, lastWriteTo_vecWrites value start count (idx + 1) j' (by omega)]

theorem suppliedIndex_vec (xs : List DataValue) (e : Nat) :
    suppliedIndex (some (.vec xs)) e = decide (e < xs.length) := by
  simp [suppliedIndex, jsTruthy, jsLength]

/-- Reading the packed buffer inside field `i`'s span: the value is the
field's own last write there, or the prior buffer content if the field does
not write that position. -/
theorem packData_getElem (data : Option DataValue) (s : SchemaDefinition)
    (ctx : PackContext) (buffer out : List Word)
    (hlen : buffer.length = (calculateStructLayout s).totalFloats)
    (h : packData data (calculateStructLayout s) buffer 0 ctx = .ok out)
    (i : Nat) (fl : FieldLayout) (hfl : (calculateStructLayout s).fields[i]? = some fl)
    (k : Nat) (hk1 : fl.floatOffset ≤ k) (hk2 : k < fieldSpanEnd fl) :
    ∃ value fw, lookupFieldValue data fl.name ctx = .ok value ∧
      singleFieldWrites fl value ctx = .ok fw ∧
      out[k]? = (match lastWriteTo fw k with
        | some w => some w
        | none => buffer[k]?) := by
  rw [packData_eq_writes] at h
  cases hw : layoutWrites data (calculateStructLayout s) ctx with
  | error e => rw [hw] at h; exact absurd h (by simp [Except.map])
  | ok ws =>
    rw [hw] at h
    simp only [Except.map, Except.ok.injEq] at h
    subst h
    obtain ⟨value, fw, hl, hsw, heq⟩ := layoutWrites_lastWrite data s ctx ws hw i fl hfl
      k hk1 hk2
    refine ⟨value, fw, hl, hsw, ?_⟩
    have hmem : fl ∈ (calculateStructLayout s).fields := by
      have := List.getElem?_eq_some.mp hfl
      obtain ⟨hj, rfl⟩ := this
      exact List.getElem_mem _
    have hklt : k < buffer.length := by
      have := calc_span_le s fl hmem
      omega
    have e1 := applyWrites_getElem 0 ws buffer k
    rw [Nat.zero_add] at e1
    rw [e1, heq]
    cases hlw : lastWriteTo fw k with
    | some w => simp [hklt]
    | none => rfl

/-- An unsupplied element of a primitive array is entirely zero-filled. -/
theorem primArrayWrites_unsupplied (p : WGSLPrimitiveType) (arrayData : Option DataValue)
    (fo ef : Nat) (hfc : (wgslTypeInfo p).floatCount ≤ ef) :
    ∀ (count i e j : Nat), i ≤ e → e < i + count → suppliedIndex arrayData e = false →
      j < ef →
      lastWriteTo (primArrayWrites p arrayData fo ef i count) (fo + e * ef + j) =
        some zeroWord
  | 0, i, e, j => by omega
  | count + 1, i, e, j => by
    intro hie hec hsup hj
    rw [primArrayWrites, lastWriteTo_append]
    by_cases hei : e = i
    · subst hei
      have hnone : lastWriteTo (primArrayWrites p arrayData fo ef (e + 1) count)
          (fo + e * ef + j) = none := by
        apply lastWriteTo_of_not_mem
        intro iw hiw
        have := primArrayWrites_extent p arrayData fo ef hfc count (e + 1) iw hiw
        have h3 : fo + (e + 1) * ef = fo + e * ef + ef := by ring
        omega
      rw [hnone]
      rw [if_neg (by simp [hsup])]
      exact lastWriteTo_zerosWrites ef (fo + e * ef) j hj
    · have := primArrayWrites_unsupplied p arrayData fo ef hfc count (i + 1) e j
        (by omega) (by omega) hsup hj
      rw [this]
termination_by count => count

/-- An unsupplied element of a struct array is entirely zero-filled. -/
theorem structArrayWrites_unsupplied (arrayData : Option DataValue) (s' : SchemaDefinition)
    (fo ef : Nat) (ctx : PackContext) (hef : (calculateStructLayout s').totalFloats ≤ ef) :
    ∀ (count i : Nat) (ws : WriteList),
      structArrayWrites arrayData (calculateStructLayout s') fo ef ctx i count = .ok ws →
      ∀ (e j : Nat), i ≤ e → e < i + count → suppliedIndex arrayData e = false → j < ef →
        lastWriteTo ws (fo + e * ef + j) = some zeroWord
  | 0, i, ws => by intro _ e j; omega
  | count + 1, i, ws => by
    intro h e j hie hec hsup hj
    obtain ⟨rws, hr, hcase⟩ := structArrayWrites_succ_ok h
    by_cases hei : e = i
    · subst hei
      rcases hcase with ⟨hs, _, _, _⟩ | ⟨hs, rfl⟩
      · rw [hsup] at hs; cases hs
      · rw [lastWriteTo_append]
        have hnone : lastWriteTo rws (fo + e * ef + j) = none := by
          apply lastWriteTo_of_not_mem
          intro iw hiw
          have := structArrayWrites_extent arrayData s' fo ef ctx hef count (e + 1)
            rws hr iw hiw
          have h3 : fo + (e + 1) * ef = fo + e * ef + ef := by ring
          omega
        rw [hnone]
        exact lastWriteTo_zerosWrites ef (fo + e * ef) j hj
    · have hrec := structArrayWrites_unsupplied arrayData s' fo ef ctx hef count (i + 1)
        rws hr e j (by omega) (by omega) hsup hj
      rcases hcase with ⟨_, _, _, rfl⟩ | ⟨_, rfl⟩ <;>
        · rw [lastWriteTo_append, hrec]
termination_by count => count

/-! ## Claimed layout invariants -/

/-- The "natural alignment" named by the spec: 4 for scalars, 8 for vec2,
16 for vec3, vec4, nested structs, and array fields. -/
def naturalAlignment : SchemaFieldType → Nat
  | .prim .f32 => 4
  | .prim .u32 => 4
  | .prim .i32 => 4
  | .prim .vec2f => 8
  | .prim .vec3f => 16
  | .prim .vec4f => 16
  | .struct _ => 16
  | .arrayStruct _ _ => 16
  | .arrayPrim _ _ => 16

theorem naturalAlignment_eq_typeAlign (t : SchemaFieldType) :
    naturalAlignment t = typeAlign t := by
  cases t with
  | prim p => cases p <;> rfl
  | struct s => rfl
  | arrayStruct s len => rfl
  | arrayPrim p len => rfl

/-- C3: for every schema, the compiled layout has a 16-byte-multiple total
size, `totalFloats = totalSize / 4`, every field's byte offset a multiple of
its type's natural alignment (4 scalars / 8 vec2 / 16 vec3, vec4, structs,
arrays), and every array field a 16-byte-multiple element stride. -/
theorem claim_C3 (schema : SchemaDefinition) :
    (calculateStructLayout schema).totalSize % 16 = 0 ∧
    (calculateStructLayout schema).totalFloats = (calculateStructLayout schema).totalSize / 4 ∧
    ∀ fl ∈ (calculateStructLayout schema).fields,
      fl.offset % naturalAlignment fl.type = 0 ∧
      (fl.isArray = true → fl.arrayElementSize.getD 0 % 16 = 0) := by
  refine ⟨calc_totalSize_mod16 schema, ?_, ?_⟩
  · have := calc_totalSize_four_mul schema
    omega
  · intro fl hfl
    simp only [calculateStructLayout, finishLayout] at hfl
    have h := layoutAux_field_facts schema 0 0 rfl fl hfl
    rw [naturalAlignment_eq_typeAlign]
    exact ⟨h.1, h.2.2⟩

/-- A default `FieldLayout`, used only to extract concrete fields in
witness statements. -/
def defaultFL : FieldLayout :=
  ⟨"", .prim .f32, 0, 0, 0, 0, 0, false, none, none, none⟩

/-- Witness schema for C3: one field of each kind. -/
def wC3Schema : SchemaDefinition :=
  .cons "a" (.prim .f32) (.cons "c" (.prim .vec3f)
    (.cons "s" (.struct (.cons "x" (.prim .vec4f) .nil))
      (.cons "arr" (.arrayPrim .f32 3)
        (.cons "spheres" (.arrayStruct (.cons "y" (.prim .f32) .nil) 2) .nil))))

/-- Witness for C3 at a concrete schema containing a scalar, a vec3, a
nested struct, a primitive array and a struct array. -/
theorem claim_C3_witness :
    (calculateStructLayout wC3Schema).totalSize % 16 = 0 ∧
    ((calculateStructLayout wC3Schema).fields.getD 3 defaultFL).offset %
      naturalAlignment ((calculateStructLayout wC3Schema).fields.getD 3 defaultFL).type = 0 ∧
    ((calculateStructLayout wC3Schema).fields.getD 3 defaultFL).arrayElementSize.getD 0 % 16 = 0 :=
  ⟨(claim_C3 wC3Schema).1,
    ((claim_C3 wC3Schema).2.2 _ (by decide)).1,
    ((claim_C3 wC3Schema).2.2 _ (by decide)).2 (by decide)⟩

/-- C4: a non-array vec3 field that is not last is followed by a field at
float offset exactly 4 greater (3 data floats + 1 mandatory padding float),
unconditionally. -/
theorem claim_C4 (schema : SchemaDefinition) (i : Nat) (fl fl' : FieldLayout)
    (h1 : ((calculateStructLayout schema).fields)[i]? = some fl)
    (h2 : ((calculateStructLayout schema).fields)[i + 1]? = some fl')
    (hty : fl.type = .prim .vec3f) :
    fl'.floatOffset = fl.floatOffset + 4 := by
  simp only [calculateStructLayout, finishLayout] at h1 h2
  exact layoutAux_vec3_next schema 0 0 rfl i fl fl' h1 h2 hty

/-- Witness schema for C4: a vec3 followed by an f32 whose own alignment
would already be satisfied without the padding float. -/
def wC4Schema : SchemaDefinition :=
  .cons "b" (.prim .vec3f) (.cons "c" (.prim .f32) .nil)

/-- Witness for C4: in `{b: vec3f, c: f32}` the field after `b` sits at
float offset 4. -/
theorem claim_C4_witness :
    ((calculateStructLayout wC4Schema).fields.getD 1 defaultFL).floatOffset =
      ((calculateStructLayout wC4Schema).fields.getD 0 defaultFL).floatOffset + 4 :=
  claim_C4 wC4Schema 0 _ _ (by decide) (by decide) (by decide)


/-- A schema with an alignment gap between fields: `{a: f32, b: vec4f}`
leaves floats 1–3 untouched by `pack`. -/
def wC2Schema : SchemaDefinition :=
  .cons "a" (.prim .f32) (.cons "b" (.prim .vec4f) .nil)

def wC2Data : DataValue :=
  .obj [("a", .num 1), ("b", .vec [.num 2, .num 3, .num 4, .num 5])]

def wC2Ctx : PackContext := ⟨800, 600⟩

def wC2BufA : List Word := List.replicate 8 zeroWord

def wC2BufB : List Word := (List.replicate 8 zeroWord).set 1 (.f32 7)

/-- Counterexample to C2 as stated: two `pack` calls with identical
`(values, context)` on differently-pre-filled buffers give different
contents — the alignment-gap float at index 1 is never written. -/
theorem claim_C2_counterexample :
    packData (some wC2Data) (calculateStructLayout wC2Schema) wC2BufA 0 wC2Ctx ≠
      packData (some wC2Data) (calculateStructLayout wC2Schema) wC2BufB 0 wC2Ctx := by
  simp [packData, packFieldsAux, packPrimField, finalPaddingFill, lookupFieldValue,
    calculateStructLayout, layoutFieldsAux, resolveFieldInfo, finishLayout, mkFieldLayout,
    padBytesFor, vec3PaddingAfter, wgslTypeInfo, wC2Schema, wC2Data, wC2Ctx, wC2BufA, wC2BufB,
    jsProp, jsIsArray, jsIndex, writeVecLoop, setZeros, f32Store, jsToNumber, froundInt,
    zeroWord, List.set]

/-- C2 (amended): the words `pack` writes depend only on `(values, context)`
— every buffer position either receives the same word on any two calls with
identical inputs, or is an alignment-gap position that keeps each buffer's
prior content; consequently re-packing an already-packed buffer leaves it
unchanged (idempotence). -/
theorem claim_C2_amended (schema : SchemaDefinition) (data : Option DataValue)
    (ctx : PackContext) (buf1 buf2 out1 out2 : List Word)
    (hlen1 : buf1.length = (calculateStructLayout schema).totalFloats)
    (hlen2 : buf2.length = (calculateStructLayout schema).totalFloats)
    (h1 : packData data (calculateStructLayout schema) buf1 0 ctx = .ok out1)
    (h2 : packData data (calculateStructLayout schema) buf2 0 ctx = .ok out2) :
    (∀ k, k < (calculateStructLayout schema).totalFloats →
      out1[k]? = out2[k]? ∨ (out1[k]? = buf1[k]? ∧ out2[k]? = buf2[k]?)) ∧
    packData data (calculateStructLayout schema) out1 0 ctx = .ok out1 := by
  rw [packData_eq_writes] at h1 h2
  cases hw : layoutWrites data (calculateStructLayout schema) ctx with
  | error e => rw [hw] at h1; exact absurd h1 (by simp [Except.map])
  | ok ws =>
    rw [hw] at h1 h2
    simp only [Except.map, Except.ok.injEq] at h1 h2
    constructor
    · intro k hk
      subst h1 h2
      have e1 := applyWrites_getElem 0 ws buf1 k
      have e2 := applyWrites_getElem 0 ws buf2 k
      rw [Nat.zero_add] at e1 e2
      rw [e1, e2]
      cases h : lastWriteTo ws k with
      | some w => left; simp [hlen1, hlen2, hk]
      | none => right; exact ⟨rfl, rfl⟩
    · rw [packData_eq_writes, hw]
      subst h1
      simp only [Except.map, Except.ok.injEq]
      exact applyWrites_idem 0 ws buf1

/-- The packed outputs of the two C2 buffers. -/
def wC2OutA : List Word :=
  [.f32 1, .f32 0, .f32 0, .f32 0, .f32 2, .f32 3, .f32 4, .f32 5]

def wC2OutB : List Word :=
  [.f32 1, .f32 7, .f32 0, .f32 0, .f32 2, .f32 3, .f32 4, .f32 5]

theorem wC2_packA :
    packData (some wC2Data) (calculateStructLayout wC2Schema) wC2BufA 0 wC2Ctx =
      .ok wC2OutA := by
  simp [packData, packFieldsAux, packPrimField, finalPaddingFill, lookupFieldValue,
    calculateStructLayout, layoutFieldsAux, resolveFieldInfo, finishLayout, mkFieldLayout,
    padBytesFor, vec3PaddingAfter, wgslTypeInfo, wC2Schema, wC2Data, wC2Ctx, wC2BufA, wC2OutA,
    jsProp, jsIsArray, jsIndex, writeVecLoop, setZeros, f32Store, jsToNumber, froundInt,
    zeroWord, List.set]

theorem wC2_packB :
    packData (some wC2Data) (calculateStructLayout wC2Schema) wC2BufB 0 wC2Ctx =
      .ok wC2OutB := by
  simp [packData, packFieldsAux, packPrimField, finalPaddingFill, lookupFieldValue,
    calculateStructLayout, layoutFieldsAux, resolveFieldInfo, finishLayout, mkFieldLayout,
    padBytesFor, vec3PaddingAfter, wgslTypeInfo, wC2Schema, wC2Data, wC2Ctx, wC2BufB, wC2OutB,
    jsProp, jsIsArray, jsIndex, writeVecLoop, setZeros, f32Store, jsToNumber, froundInt,
    zeroWord, List.set]

/-- Witness for the amended C2 at the gap schema: position 1 (the alignment
gap) keeps each buffer's prior content, and re-packing is idempotent. -/
theorem claim_C2_amended_witness :
    (wC2OutA[1]? = wC2OutB[1]? ∨ (wC2OutA[1]? = wC2BufA[1]? ∧ wC2OutB[1]? = wC2BufB[1]?)) ∧
    packData (some wC2Data) (calculateStructLayout wC2Schema) wC2OutA 0 wC2Ctx =
      .ok wC2OutA :=
  ⟨(claim_C2_amended wC2Schema (some wC2Data) wC2Ctx wC2BufA wC2BufB wC2OutA wC2OutB
      (by decide) (by decide) wC2_packA wC2_packB).1 1 (by decide),
    (claim_C2_amended wC2Schema (some wC2Data) wC2Ctx wC2BufA wC2BufB wC2OutA wC2OutB
      (by decide) (by decide) wC2_packA wC2_packB).2⟩



theorem elem_index_lt (A L e j : Nat) (he : e < L) (hj : j < A) : e * A + j < A * L := by
  have h1 : e * A + A = (e + 1) * A := by ring
  have h3 : (e + 1) * A ≤ L * A := Nat.mul_le_mul_right A (by omega)
  have h4 : L * A = A * L := by ring
  omega

/-- C6: packing an array field (of structs or primitives) with a supplied
array shorter than the declared length zero-fills every float of every
unsupplied element's full stride. -/
theorem claim_C6 (schema : SchemaDefinition) (data : Option DataValue) (ctx : PackContext)
    (buffer out : List Word) (xs : List DataValue)
    (hlen : buffer.length = (calculateStructLayout schema).totalFloats)
    (hok : packData data (calculateStructLayout schema) buffer 0 ctx = .ok out)
    (i : Nat) (fl : FieldLayout)
    (hfl : (calculateStructLayout schema).fields[i]? = some fl)
    (harr : fl.isArray = true)
    (hval : lookupFieldValue data fl.name ctx = .ok (some (.vec xs)))
    (e j : Nat) (he1 : xs.length ≤ e) (he2 : e < fl.arrayLength.getD 0)
    (hj : j < fl.arrayElementFloats.getD 0) :
    out[fl.floatOffset + e * fl.arrayElementFloats.getD 0 + j]? = some zeroWord := by
  have hmem : fl ∈ (calculateStructLayout schema).fields := by
    have := List.getElem?_eq_some.mp hfl
    obtain ⟨hj2, rfl⟩ := this
    exact List.getElem_mem _
  obtain ⟨hsize, hfc, hpad, hisarr, hlenF, hes, hef⟩ := canonField_spec
    (calc_canon schema fl hmem)
  have hsup : suppliedIndex (some (.vec xs)) e = false := by
    rw [suppliedIndex_vec]
    simp
    omega
  have hAL : fl.floatCount = fl.arrayElementFloats.getD 0 * fl.arrayLength.getD 0 := by
    cases ht : fl.type with
    | prim p => rw [hisarr, ht] at harr; simp [resolveFieldInfo] at harr
    | struct s' => rw [hisarr, ht] at harr; simp [resolveFieldInfo] at harr
    | arrayStruct s' len =>
      rw [hfc, hef, hlenF, ht]
      simp [typeFloats, resolveFieldInfo]
    | arrayPrim p len =>
      rw [hfc, hef, hlenF, ht]
      simp [typeFloats, resolveFieldInfo]
  have hkspan : e * fl.arrayElementFloats.getD 0 + j < fl.floatCount := by
    rw [hAL]
    exact elem_index_lt _ _ _ _ he2 hj
  obtain ⟨value, fw, hl, hsw, hout⟩ := packData_getElem data schema ctx buffer out hlen hok
    i fl hfl (fl.floatOffset + e * fl.arrayElementFloats.getD 0 + j)
    (by omega) (by simp only [fieldSpanEnd]; omega)
  have hv : value = some (.vec xs) := by
    rw [hl] at hval
    simpa using hval
  subst hv
  cases ht : fl.type with
  | prim p => rw [hisarr, ht] at harr; simp [resolveFieldInfo] at harr
  | struct s' => rw [hisarr, ht] at harr; simp [resolveFieldInfo] at harr
  | arrayStruct s' len =>
    rw [singleFieldWrites_arrayStruct _ ctx harr ht] at hsw
    have hef0 : fl.arrayElementFloats.getD 0 =
        ((calculateStructLayout s').totalSize + 15) / 16 * 16 / 4 := by
      rw [hef, ht]
      simp [resolveFieldInfo, finishLayout, calculateStructLayout]
    have hlen0 : fl.arrayLength.getD 0 = len := by
      rw [hlenF, ht]; simp [resolveFieldInfo]
    have hzero := structArrayWrites_unsupplied (some (.vec xs)) s' fl.floatOffset
      (fl.arrayElementFloats.getD 0) ctx (by rw [hef0]; exact arrayStruct_elemFloats_ge s')
      (fl.arrayLength.getD 0) 0 fw hsw e j (by omega) (by omega) hsup hj
    rw [hout, hzero]
  | arrayPrim p len =>
    rw [singleFieldWrites_arrayPrim _ ctx harr ht] at hsw
    simp only [Except.ok.injEq] at hsw
    subst hsw
    have hef0 : fl.arrayElementFloats.getD 0 = max 16 (wgslTypeInfo p).size / 4 := by
      rw [hef, ht]; simp [resolveFieldInfo]
    have hfcle : (wgslTypeInfo p).floatCount ≤ fl.arrayElementFloats.getD 0 := by
      rw [hef0]
      cases p <;> simp [wgslTypeInfo]
    have hzero := primArrayWrites_unsupplied p (some (.vec xs)) fl.floatOffset
      (fl.arrayElementFloats.getD 0) hfcle (fl.arrayLength.getD 0) 0 e j
      (by omega) (by omega) hsup hj
    rw [hout, hzero]

/-- Witness schema for C6: a single primitive array field of declared length 3. -/
def wC6Schema : SchemaDefinition := .cons "vals" (.arrayPrim .f32 3) .nil

def wC6Data : DataValue := .obj [("vals", .vec [.num 1])]

def wC6Out : List Word :=
  [.f32 1, .f32 0, .f32 0, .f32 0, .f32 0, .f32 0, .f32 0, .f32 0, .f32 0, .f32 0, .f32 0, .f32 0]

theorem wC6_pack :
    packData (some wC6Data) (calculateStructLayout wC6Schema)
      (List.replicate 12 (Word.f32 9)) 0 wC2Ctx = .ok wC6Out := by
  simp [packData, packFieldsAux, packPrimField, packPrimArrayLoop, finalPaddingFill,
    lookupFieldValue, calculateStructLayout, layoutFieldsAux, resolveFieldInfo, finishLayout,
    mkFieldLayout, padBytesFor, vec3PaddingAfter, wgslTypeInfo, wC6Schema, wC6Data, wC2Ctx,
    wC6Out, jsProp, jsIsArray, jsIndex, jsLength, suppliedIndex, writeVecLoop, setZeros,
    f32Store, jsToNumber, froundInt, zeroWord, List.set, List.replicate]

/-- Witness for C6: packing [1] into the length-3 f32 array leaves the whole
stride of the unsupplied element 1 (floats 4-7) at zero; float 4 shown. -/
theorem claim_C6_witness : wC6Out[4]? = some zeroWord :=
  claim_C6 wC6Schema (some wC6Data) wC2Ctx (List.replicate 12 (Word.f32 9)) wC6Out
    [.num 1] (by decide) wC6_pack 0
    ((calculateStructLayout wC6Schema).fields.getD 0 defaultFL)
    rfl rfl rfl 1 0 (by decide) (by decide) (by decide)

/-- Counterexample schema for C8: the reserved name with a struct type. -/
def wC8BadSchema : SchemaDefinition :=
  .cons "screenResolution" (.struct (.cons "a" (.prim .f32) .nil)) .nil

/-- C8 counterexample: with `screenResolution` declared as a struct, packing
under context (800, 600) stores NaN in the field's first float, not the
canvas width, so the claim fails for non-vec2f-typed reserved fields. -/
theorem claim_C8_counterexample :
    packData (some (.obj [])) (calculateStructLayout wC8BadSchema)
      (List.replicate 4 (Word.f32 0)) 0 ⟨800, 600⟩ =
      .ok [Word.nan, .f32 0, .f32 0, .f32 0] ∧
    Word.nan ≠ Word.f32 800 := by
  constructor
  · simp [packData, packFieldsAux, packPrimField, finalPaddingFill, lookupFieldValue,
      calculateStructLayout, layoutFieldsAux, resolveFieldInfo, finishLayout, mkFieldLayout,
      padBytesFor, vec3PaddingAfter, wgslTypeInfo, wC8BadSchema, jsProp, jsIsArray, jsIndex,
      setZeros, f32Store, jsToNumber, froundInt, zeroWord, List.set, List.replicate]
  · simp

/-- Amended C8: when the reserved field is declared with type `vec2f` and the
canvas dimensions are f32-exact, packing writes the context's width and
height into the field's two floats, ignoring the caller's value tree. -/
theorem claim_C8_amended (schema : SchemaDefinition) (data : Option DataValue)
    (ctx : PackContext) (buffer out : List Word)
    (hlen : buffer.length = (calculateStructLayout schema).totalFloats)
    (hok : packData data (calculateStructLayout schema) buffer 0 ctx = .ok out)
    (i : Nat) (fl : FieldLayout)
    (hfl : (calculateStructLayout schema).fields[i]? = some fl)
    (hname : fl.name = "screenResolution")
    (hty : fl.type = .prim .vec2f)
    (hw : F32Exact ctx.canvasWidth) (hh : F32Exact ctx.canvasHeight) :
    out[fl.floatOffset]? = some (.f32 ctx.canvasWidth) ∧
    out[fl.floatOffset + 1]? = some (.f32 ctx.canvasHeight) := by
  have hmem : fl ∈ (calculateStructLayout schema).fields := by
    obtain ⟨hj2, rfl⟩ := List.getElem?_eq_some.mp hfl
    exact List.getElem_mem _
  obtain ⟨hsize, hfc, hpad, hisarr, hlenF, hes, hef⟩ := canonField_spec
    (calc_canon schema fl hmem)
  have harr : fl.isArray = false := by
    rw [hisarr, hty]; simp [resolveFieldInfo]
  have hfc2 : fl.floatCount = 2 := by
    rw [hfc, hty]; simp [typeFloats, resolveFieldInfo, wgslTypeInfo]
  have hpad0 : fl.paddingAfter = 0 := by
    rw [hpad, hty]; simp [vec3PaddingAfter, resolveFieldInfo, wgslTypeInfo]
  have hword : ∀ j : Nat, j < 2 →
      ∀ k : Nat, k = fl.floatOffset + j →
      out[k]? = some (f32Store (jsIndex
        (some (.vec [.num ctx.canvasWidth, .num ctx.canvasHeight])) j)) := by
    intro j hj k hk
    obtain ⟨value, fw, hl, hsw, hout⟩ := packData_getElem data schema ctx buffer out hlen hok
      i fl hfl k (by omega) (by simp only [fieldSpanEnd]; omega)
    have hv : value = some (.vec [.num ctx.canvasWidth, .num ctx.canvasHeight]) := by
      rw [hname] at hl
      simp [lookupFieldValue] at hl
      exact hl.symm
    subst hv
    rw [singleFieldWrites_prim _ ctx harr hty] at hsw
    simp only [Except.ok.injEq] at hsw
    subst hsw
    have hfw : primFieldWrites .vec2f fl
        (some (.vec [.num ctx.canvasWidth, .num ctx.canvasHeight])) =
        vecWrites (some (.vec [.num ctx.canvasWidth, .num ctx.canvasHeight]))
          fl.floatOffset 0 2 := by
      simp [primFieldWrites, jsIsArray, wgslTypeInfo, hpad0, zerosWrites]
    have hlast := lastWriteTo_vecWrites
      (some (.vec [.num ctx.canvasWidth, .num ctx.canvasHeight])) fl.floatOffset 2 0 j hj
    have hidx : fl.floatOffset + 0 + j = k := by omega
    rw [hidx] at hlast
    rw [hout, hfw, hlast]
    simp
  constructor
  · have := hword 0 (by omega) fl.floatOffset (by omega)
    rw [this]
    simp only [jsIndex, List.get?, f32Store, jsToNumber]
    exact congrArg some hw
  · have := hword 1 (by omega) (fl.floatOffset + 1) rfl
    rw [this]
    simp only [jsIndex, List.get?, f32Store, jsToNumber]
    exact congrArg some hh

/-- Witness schema for the amended C8: the reserved field with type vec2f. -/
def wC8Schema : SchemaDefinition := .cons "screenResolution" (.prim .vec2f) .nil

/-- Caller-supplied value for the reserved field, which must be ignored. -/
def wC8Data : DataValue := .obj [("screenResolution", .vec [.num 5, .num 6])]

def wC8Out : List Word := [.f32 800, .f32 600, .f32 0, .f32 0]

theorem wC8_pack :
    packData (some wC8Data) (calculateStructLayout wC8Schema)
      (List.replicate 4 (Word.f32 9)) 0 ⟨800, 600⟩ = .ok wC8Out := by
  simp [packData, packFieldsAux, packPrimField, finalPaddingFill, lookupFieldValue,
    calculateStructLayout, layoutFieldsAux, resolveFieldInfo, finishLayout, mkFieldLayout,
    padBytesFor, vec3PaddingAfter, wgslTypeInfo, wC8Schema, wC8Data, wC8Out, jsProp,
    jsIsArray, jsIndex, writeVecLoop, setZeros, f32Store, jsToNumber, froundInt, zeroWord,
    List.set, List.replicate]

/-- Witness for the amended C8: the context's 800 x 600 lands in the two
floats even though the caller supplied [5, 6] for the reserved name. -/
theorem claim_C8_amended_witness :
    wC8Out[0]? = some (Word.f32 800) ∧ wC8Out[1]? = some (Word.f32 600) :=
  claim_C8_amended wC8Schema (some wC8Data) ⟨800, 600⟩
    (List.replicate 4 (Word.f32 9)) wC8Out (by decide) wC8_pack 0
    ((calculateStructLayout wC8Schema).fields.getD 0 defaultFL)
    rfl rfl rfl (by decide) (by decide)

/-- Counterexample schema for C7: a single f32 field missing from the data. -/
def wC7Schema : SchemaDefinition := .cons "x" (.prim .f32) .nil

/-- Second counterexample schema for C7: a struct field missing from the data. -/
def wC7SSchema : SchemaDefinition :=
  .cons "s" (.struct (.cons "a" (.prim .f32) .nil)) .nil

/-- C7 counterexample: a missing f32 field packs as NaN rather than zero, and
a missing struct field makes pack throw rather than complete. -/
theorem claim_C7_counterexample :
    (packData (some (.obj [])) (calculateStructLayout wC7Schema)
      (List.replicate 4 (Word.f32 0)) 0 wC2Ctx =
      .ok [Word.nan, .f32 0, .f32 0, .f32 0] ∧ Word.nan ≠ zeroWord) ∧
    packData (some (.obj [])) (calculateStructLayout wC7SSchema)
      (List.replicate 4 (Word.f32 0)) 0 wC2Ctx = .error () := by
  refine ⟨⟨?_, by simp [zeroWord]⟩, ?_⟩
  · simp [packData, packFieldsAux, packPrimField, finalPaddingFill, lookupFieldValue,
      calculateStructLayout, layoutFieldsAux, resolveFieldInfo, finishLayout, mkFieldLayout,
      padBytesFor, vec3PaddingAfter, wgslTypeInfo, wC7Schema, jsProp, jsIsArray, jsIndex,
      setZeros, f32Store, jsToNumber, froundInt, zeroWord, List.set, List.replicate]
  · simp [packData, packFieldsAux, packPrimField, finalPaddingFill, lookupFieldValue,
      calculateStructLayout, layoutFieldsAux, resolveFieldInfo, finishLayout, mkFieldLayout,
      padBytesFor, vec3PaddingAfter, wgslTypeInfo, wC7SSchema, jsProp, jsIsArray, jsIndex,
      setZeros, f32Store, jsToNumber, froundInt, zeroWord, List.set, List.replicate]

/-- Amended C7: when a field's looked-up value is `undefined`, the result
depends on the field kind: an i32/u32 scalar stores bit pattern 0, any other
primitive stores NaN in its first float and leaves its remaining data floats
at their prior contents, and an array field zero-fills every declared
element stride (struct fields instead make pack throw; see the
counterexample). -/
theorem claim_C7_amended (schema : SchemaDefinition) (data : Option DataValue)
    (ctx : PackContext) (buffer out : List Word)
    (hlen : buffer.length = (calculateStructLayout schema).totalFloats)
    (hok : packData data (calculateStructLayout schema) buffer 0 ctx = .ok out)
    (i : Nat) (fl : FieldLayout)
    (hfl : (calculateStructLayout schema).fields[i]? = some fl)
    (hval : lookupFieldValue data fl.name ctx = .ok none) :
    (∀ p, fl.type = .prim p →
      out[fl.floatOffset]? =
        some (if p = .i32 ∨ p = .u32 then Word.bits 0 else Word.nan)) ∧
    (∀ p j, fl.type = .prim p → 1 ≤ j → j < fl.floatCount →
      out[fl.floatOffset + j]? = buffer[fl.floatOffset + j]?) ∧
    (∀ e j, fl.isArray = true → e < fl.arrayLength.getD 0 →
      j < fl.arrayElementFloats.getD 0 →
      out[fl.floatOffset + e * fl.arrayElementFloats.getD 0 + j]? = some zeroWord) := by
  have hmem : fl ∈ (calculateStructLayout schema).fields := by
    obtain ⟨hj2, rfl⟩ := List.getElem?_eq_some.mp hfl
    exact List.getElem_mem _
  obtain ⟨hsize, hfc, hpad, hisarr, hlenF, hes, hef⟩ := canonField_spec
    (calc_canon schema fl hmem)
  refine ⟨?_, ?_, ?_⟩
  · intro p hp
    have harr : fl.isArray = false := by rw [hisarr, hp]; simp [resolveFieldInfo]
    have hfcp : fl.floatCount = (wgslTypeInfo p).floatCount := by
      rw [hfc, hp]; simp [typeFloats, resolveFieldInfo]
    have hfcpos := wgslTypeInfo_floatCount_pos p
    obtain ⟨value, fw, hl, hsw, hout⟩ := packData_getElem data schema ctx buffer out hlen hok
      i fl hfl fl.floatOffset (Nat.le_refl _) (by simp only [fieldSpanEnd]; omega)
    have hv : value = none := by rw [hl] at hval; simpa using hval
    subst hv
    rw [singleFieldWrites_prim _ ctx harr hp] at hsw
    simp only [Except.ok.injEq] at hsw
    subst hsw
    have hfw : primFieldWrites p fl none =
        (if p = .i32 ∨ p = .u32 then [(fl.floatOffset, Word.bits (intStoreBits none))]
         else [(fl.floatOffset, f32Store none)]) ++
        zerosWrites (fl.floatOffset + (wgslTypeInfo p).floatCount) fl.paddingAfter := by
      simp [primFieldWrites, jsIsArray]
    have hzn : lastWriteTo (zerosWrites (fl.floatOffset + (wgslTypeInfo p).floatCount)
        fl.paddingAfter) fl.floatOffset = none := by
      apply lastWriteTo_of_not_mem
      intro iw hiw
      have := zerosWrites_extent _ _ iw hiw
      omega
    have hlast : lastWriteTo (primFieldWrites p fl none) fl.floatOffset =
        some (if p = .i32 ∨ p = .u32 then Word.bits 0 else Word.nan) := by
      rw [hfw, lastWriteTo_append, hzn]
      by_cases hp32 : p = .i32 ∨ p = .u32
      · rw [if_pos hp32, if_pos hp32]
        simp [lastWriteTo, List.filter, intStoreBits, jsToNumber]
      · rw [if_neg hp32, if_neg hp32]
        simp [lastWriteTo, List.filter, f32Store, jsToNumber]
    rw [hout, hlast]
  · intro p j hp hj1 hj2
    have harr : fl.isArray = false := by rw [hisarr, hp]; simp [resolveFieldInfo]
    have hfcp : fl.floatCount = (wgslTypeInfo p).floatCount := by
      rw [hfc, hp]; simp [typeFloats, resolveFieldInfo]
    obtain ⟨value, fw, hl, hsw, hout⟩ := packData_getElem data schema ctx buffer out hlen hok
      i fl hfl (fl.floatOffset + j) (by omega) (by simp only [fieldSpanEnd]; omega)
    have hv : value = none := by rw [hl] at hval; simpa using hval
    subst hv
    rw [singleFieldWrites_prim _ ctx harr hp] at hsw
    simp only [Except.ok.injEq] at hsw
    subst hsw
    have hnone : lastWriteTo (primFieldWrites p fl none) (fl.floatOffset + j) = none := by
      apply lastWriteTo_of_not_mem
      intro iw hiw
      simp [primFieldWrites, jsIsArray, List.mem_append] at hiw
      rcases hiw with hiw | hiw
      · have h1 : iw.1 = fl.floatOffset := by
          by_cases hp32 : p = .i32 ∨ p = .u32
          · rw [if_pos hp32] at hiw; simp at hiw; rw [hiw]
          · rw [if_neg hp32] at hiw; simp at hiw; rw [hiw]
        omega
      · have := zerosWrites_extent _ _ iw hiw
        omega
    rw [hout, hnone]
  · intro e j harr he2 hj
    have hAL : fl.floatCount = fl.arrayElementFloats.getD 0 * fl.arrayLength.getD 0 := by
      cases ht : fl.type with
      | prim p => rw [hisarr, ht] at harr; simp [resolveFieldInfo] at harr
      | struct s' => rw [hisarr, ht] at harr; simp [resolveFieldInfo] at harr
      | arrayStruct s' len => rw [hfc, hef, hlenF, ht]; simp [typeFloats, resolveFieldInfo]
      | arrayPrim p len => rw [hfc, hef, hlenF, ht]; simp [typeFloats, resolveFieldInfo]
    have hkspan : e * fl.arrayElementFloats.getD 0 + j < fl.floatCount := by
      rw [hAL]
      exact elem_index_lt _ _ _ _ he2 hj
    obtain ⟨value, fw, hl, hsw, hout⟩ := packData_getElem data schema ctx buffer out hlen hok
      i fl hfl (fl.floatOffset + e * fl.arrayElementFloats.getD 0 + j)
      (by omega) (by simp only [fieldSpanEnd]; omega)
    have hv : value = none := by rw [hl] at hval; simpa using hval
    subst hv
    have hsup : suppliedIndex none e = false := by simp [suppliedIndex, jsTruthy]
    cases ht : fl.type with
    | prim p => rw [hisarr, ht] at harr; simp [resolveFieldInfo] at harr
    | struct s' => rw [hisarr, ht] at harr; simp [resolveFieldInfo] at harr
    | arrayStruct s' len =>
      rw [singleFieldWrites_arrayStruct _ ctx harr ht] at hsw
      have hef0 : fl.arrayElementFloats.getD 0 =
          ((calculateStructLayout s').totalSize + 15) / 16 * 16 / 4 := by
        rw [hef, ht]
        simp [resolveFieldInfo, finishLayout, calculateStructLayout]
      have hzero := structArrayWrites_unsupplied none s' fl.floatOffset
        (fl.arrayElementFloats.getD 0) ctx (by rw [hef0]; exact arrayStruct_elemFloats_ge s')
        (fl.arrayLength.getD 0) 0 fw hsw e j (by omega) (by omega) hsup hj
      rw [hout, hzero]
    | arrayPrim p len =>
      rw [singleFieldWrites_arrayPrim _ ctx harr ht] at hsw
      simp only [Except.ok.injEq] at hsw
      subst hsw
      have hef0 : fl.arrayElementFloats.getD 0 = max 16 (wgslTypeInfo p).size / 4 := by
        rw [hef, ht]; simp [resolveFieldInfo]
      have hfcle : (wgslTypeInfo p).floatCount ≤ fl.arrayElementFloats.getD 0 := by
        rw [hef0]
        cases p <;> simp [wgslTypeInfo]
      have hzero := primArrayWrites_unsupplied p none fl.floatOffset
        (fl.arrayElementFloats.getD 0) hfcle (fl.arrayLength.getD 0) 0 e j
        (by omega) (by omega) hsup hj
      rw [hout, hzero]

/-- Witness schema for the amended C7: an f32, a u32 and an f32 array, all
missing from the supplied data. -/
def wC7WSchema : SchemaDefinition :=
  .cons "a" (.prim .f32) (.cons "b" (.prim .u32) (.cons "c" (.arrayPrim .f32 2) .nil))

def wC7WData : DataValue := .obj []

def wC7WOut : List Word :=
  [.nan, .bits 0, .f32 9, .f32 9, .f32 0, .f32 0, .f32 0, .f32 0,
   .f32 0, .f32 0, .f32 0, .f32 0]

theorem wC7W_pack :
    packData (some wC7WData) (calculateStructLayout wC7WSchema)
      (List.replicate 12 (Word.f32 9)) 0 wC2Ctx = .ok wC7WOut := by
  simp [packData, packFieldsAux, packPrimField, packPrimArrayLoop, finalPaddingFill,
    lookupFieldValue, calculateStructLayout, layoutFieldsAux, resolveFieldInfo, finishLayout,
    mkFieldLayout, padBytesFor, vec3PaddingAfter, wgslTypeInfo, wC7WSchema, wC7WData, wC7WOut,
    jsProp, jsIsArray, jsIndex, jsLength, suppliedIndex, jsTruthy, writeVecLoop, setZeros,
    f32Store, intStoreBits, jsToNumber, froundInt, zeroWord, List.set, List.replicate]

/-- Witness for the amended C7: the missing f32 stores NaN, the missing u32
stores bit pattern 0, and the missing array's elements are zero-filled. -/
theorem claim_C7_amended_witness :
    wC7WOut[0]? = some Word.nan ∧ wC7WOut[1]? = some (Word.bits 0) ∧
    wC7WOut[4]? = some zeroWord :=
  ⟨(claim_C7_amended wC7WSchema (some wC7WData) wC2Ctx (List.replicate 12 (Word.f32 9))
      wC7WOut (by decide) wC7W_pack 0
      ((calculateStructLayout wC7WSchema).fields.getD 0 defaultFL) rfl rfl).1
      WGSLPrimitiveType.f32 rfl,
   (claim_C7_amended wC7WSchema (some wC7WData) wC2Ctx (List.replicate 12 (Word.f32 9))
      wC7WOut (by decide) wC7W_pack 1
      ((calculateStructLayout wC7WSchema).fields.getD 1 defaultFL) rfl rfl).1
      WGSLPrimitiveType.u32 rfl,
   (claim_C7_amended wC7WSchema (some wC7WData) wC2Ctx (List.replicate 12 (Word.f32 9))
      wC7WOut (by decide) wC7W_pack 2
      ((calculateStructLayout wC7WSchema).fields.getD 2 defaultFL) rfl rfl).2.2
      0 0 rfl (by decide) (by decide)⟩

/-- Decoding a single float of the packed buffer (the inverse read of a
`Float32Array` slot holding a finite value). -/
def decodeF32 (buffer : List Word) (k : Nat) : Option Int :=
  match buffer[k]? with
  | some (.f32 v) => some v
  | _ => none

/-- Decoding one primitive field of the packed buffer per the generated
struct layout, as the spec describes the round trip: floats and vector
components are read back as f32 values, u32 as the unsigned 32-bit pattern,
i32 as the two's-complement reading of the same pattern. -/
def decodePrim (p : WGSLPrimitiveType) (buffer : List Word) (off : Nat) : Option DataValue :=
  match p with
  | .f32 => (decodeF32 buffer off).map (fun v => .num v)
  | .u32 =>
    match buffer[off]? with
    | some (.bits b) => some (.num (b : Int))
    | _ => none
  | .i32 =>
    match buffer[off]? with
    | some (.bits b) => some (.num (if b < 2 ^ 31 then (b : Int) else (b : Int) - 2 ^ 32))
    | _ => none
  | .vec2f =>
    match decodeF32 buffer off, decodeF32 buffer (off + 1) with
    | some a, some b => some (.vec [.num a, .num b])
    | _, _ => none
  | .vec3f =>
    match decodeF32 buffer off, decodeF32 buffer (off + 1), decodeF32 buffer (off + 2) with
    | some a, some b, some c => some (.vec [.num a, .num b, .num c])
    | _, _, _ => none
  | .vec4f =>
    match decodeF32 buffer off, decodeF32 buffer (off + 1), decodeF32 buffer (off + 2),
        decodeF32 buffer (off + 3) with
    | some a, some b, some c, some d => some (.vec [.num a, .num b, .num c, .num d])
    | _, _, _, _ => none

theorem wC5_fround : froundInt 16777217 = .f32 16777216 := by
  norm_num [froundInt, Nat.log2]

/-- Counterexample schema and data for C5: an f32 field holding 2^24 + 1,
which is not representable in f32. -/
def wC5Schema : SchemaDefinition := .cons "x" (.prim .f32) .nil

def wC5Data : DataValue := .obj [("x", .num 16777217)]

/-- C5 counterexample: packing 16777217 into an f32 field stores the rounded
value 16777216, so decoding does not recover the supplied value. -/
theorem claim_C5_counterexample :
    packData (some wC5Data) (calculateStructLayout wC5Schema)
      (List.replicate 4 (Word.f32 0)) 0 wC2Ctx =
      .ok [.f32 16777216, .f32 0, .f32 0, .f32 0] ∧
    decodePrim .f32 [.f32 16777216, .f32 0, .f32 0, .f32 0] 0 = some (.num 16777216) ∧
    (16777216 : Int) ≠ 16777217 := by
  refine ⟨?_, by simp [decodePrim, decodeF32], by norm_num⟩
  simp [packData, packFieldsAux, packPrimField, finalPaddingFill, lookupFieldValue,
    calculateStructLayout, layoutFieldsAux, resolveFieldInfo, finishLayout, mkFieldLayout,
    padBytesFor, vec3PaddingAfter, wgslTypeInfo, wC5Schema, wC5Data, jsProp, jsIsArray,
    jsIndex, setZeros, f32Store, jsToNumber, wC5_fround, zeroWord, List.set, List.replicate]

/-- Amended C5: the pack/decode round trip is exact on primitive fields
whose values survive the stores the packer actually performs: f32 scalars
and vector components that are exactly representable in f32, u32 scalars in
[0, 2^32) and i32 scalars in [-2^31, 2^31) (these two are bit-exact via the
little-endian integer stores, never a float cast). -/
theorem claim_C5_amended (schema : SchemaDefinition) (data : Option DataValue)
    (ctx : PackContext) (buffer out : List Word)
    (hlen : buffer.length = (calculateStructLayout schema).totalFloats)
    (hok : packData data (calculateStructLayout schema) buffer 0 ctx = .ok out)
    (i : Nat) (fl : FieldLayout)
    (hfl : (calculateStructLayout schema).fields[i]? = some fl)
    (p : WGSLPrimitiveType) (hp : fl.type = .prim p) (v : DataValue)
    (hval : lookupFieldValue data fl.name ctx = .ok (some v)) :
    (∀ n : Int, v = .num n → (p = .f32 → F32Exact n) →
      (p = .u32 → 0 ≤ n ∧ n < 2 ^ 32) →
      (p = .i32 → -(2 ^ 31) ≤ n ∧ n < 2 ^ 31) →
      (p = .f32 ∨ p = .u32 ∨ p = .i32) →
      decodePrim p out fl.floatOffset = some (.num n)) ∧
    (∀ ns : List Int, v = .vec (ns.map (fun n => .num n)) →
      ns.length = (wgslTypeInfo p).floatCount →
      (∀ n ∈ ns, F32Exact n) →
      (p = .vec2f ∨ p = .vec3f ∨ p = .vec4f) →
      decodePrim p out fl.floatOffset = some (.vec (ns.map (fun n => .num n)))) := by
  have hmem : fl ∈ (calculateStructLayout schema).fields := by
    obtain ⟨hj2, rfl⟩ := List.getElem?_eq_some.mp hfl
    exact List.getElem_mem _
  obtain ⟨hsize, hfc, hpad, hisarr, hlenF, hes, hef⟩ := canonField_spec
    (calc_canon schema fl hmem)
  have harr : fl.isArray = false := by rw [hisarr, hp]; simp [resolveFieldInfo]
  have hfcp : fl.floatCount = (wgslTypeInfo p).floatCount := by
    rw [hfc, hp]; simp [typeFloats, resolveFieldInfo]
  have hfcpos := wgslTypeInfo_floatCount_pos p
  constructor
  · intro n hv hf32 hu32 hi32 hscalar
    subst hv
    obtain ⟨value, fw, hl, hsw, hout⟩ := packData_getElem data schema ctx buffer out hlen hok
      i fl hfl fl.floatOffset (Nat.le_refl _) (by simp only [fieldSpanEnd]; omega)
    have hveq : value = some (.num n) := by rw [hl] at hval; simpa using hval
    subst hveq
    rw [singleFieldWrites_prim _ ctx harr hp] at hsw
    simp only [Except.ok.injEq] at hsw
    subst hsw
    have hfw : primFieldWrites p fl (some (.num n)) =
        (if p = .i32 ∨ p = .u32 then
          [(fl.floatOffset, Word.bits (intStoreBits (some (.num n))))]
         else [(fl.floatOffset, f32Store (some (.num n)))]) ++
        zerosWrites (fl.floatOffset + (wgslTypeInfo p).floatCount) fl.paddingAfter := by
      simp [primFieldWrites, jsIsArray]
    have hzn : lastWriteTo (zerosWrites (fl.floatOffset + (wgslTypeInfo p).floatCount)
        fl.paddingAfter) fl.floatOffset = none := by
      apply lastWriteTo_of_not_mem
      intro iw hiw
      have := zerosWrites_extent _ _ iw hiw
      omega
    have hout0 : out[fl.floatOffset]? =
        some (if p = .i32 ∨ p = .u32 then Word.bits (intStoreBits (some (.num n)))
          else f32Store (some (.num n))) := by
      rw [hout, hfw, lastWriteTo_append, hzn]
      by_cases hp32 : p = .i32 ∨ p = .u32
      · rw [if_pos hp32, if_pos hp32]
        simp [lastWriteTo, List.filter]
      · rw [if_neg hp32, if_neg hp32]
        simp [lastWriteTo, List.filter]
    rcases hscalar with rfl | rfl | rfl
    · have hfx : froundInt n = .f32 n := hf32 rfl
      rw [if_neg (by simp)] at hout0
      simp [decodePrim, decodeF32, hout0, f32Store, jsToNumber, hfx]
    · obtain ⟨hn0, hn1⟩ := hu32 rfl
      rw [if_pos (by simp)] at hout0
      simp only [decodePrim, hout0, intStoreBits, jsToNumber, Option.some.injEq]
      congr 1
      congr 1
      omega
    · obtain ⟨hn0, hn1⟩ := hi32 rfl
      rw [if_pos (by simp)] at hout0
      simp only [decodePrim, hout0, intStoreBits, jsToNumber, Option.some.injEq]
      congr 1
      split
      · omega
      · omega
  · intro ns hv hlen2 hex hvecp
    subst hv
    have hword : ∀ j, j < (wgslTypeInfo p).floatCount →
        out[fl.floatOffset + j]? =
          some (f32Store (jsIndex (some (.vec (ns.map (fun n => .num n)))) j)) := by
      intro j hj
      obtain ⟨value, fw, hl, hsw, hout⟩ := packData_getElem data schema ctx buffer out hlen hok
        i fl hfl (fl.floatOffset + j) (by omega) (by simp only [fieldSpanEnd]; omega)
      have hveq : value = some (.vec (ns.map (fun n => .num n))) := by
        rw [hl] at hval; simpa using hval
      subst hveq
      rw [singleFieldWrites_prim _ ctx harr hp] at hsw
      simp only [Except.ok.injEq] at hsw
      subst hsw
      have hfw : primFieldWrites p fl (some (.vec (ns.map (fun n => .num n)))) =
          vecWrites (some (.vec (ns.map (fun n => .num n)))) fl.floatOffset 0
            (wgslTypeInfo p).floatCount ++
          zerosWrites (fl.floatOffset + (wgslTypeInfo p).floatCount) fl.paddingAfter := by
        simp [primFieldWrites, jsIsArray]
      have hzn : lastWriteTo (zerosWrites (fl.floatOffset + (wgslTypeInfo p).floatCount)
          fl.paddingAfter) (fl.floatOffset + j) = none := by
        apply lastWriteTo_of_not_mem
        intro iw hiw
        have := zerosWrites_extent _ _ iw hiw
        omega
      have hvw := lastWriteTo_vecWrites (some (.vec (ns.map (fun n => .num n))))
        fl.floatOffset (wgslTypeInfo p).floatCount 0 j hj
      have hidx : fl.floatOffset + 0 + j = fl.floatOffset + j := by omega
      rw [hidx] at hvw
      rw [hout, hfw, lastWriteTo_append, hzn, hvw]
      simp
    have hcomp : ∀ j x, ns.get? j = some x → j < (wgslTypeInfo p).floatCount →
        decodeF32 out (fl.floatOffset + j) = some x := by
      intro j x hx hj
      have hmemx : x ∈ ns := List.get?_mem hx
      have hfex : froundInt x = .f32 x := hex x hmemx
      have hx2 : ns[j]? = some x := by rw [← List.get?_eq_getElem?]; exact hx
      have hco : out[fl.floatOffset + j]? = some (Word.f32 x) := by
        rw [hword j hj]
        simp [jsIndex, List.get?_map, hx, hx2, f32Store, jsToNumber, hfex]
      simp [decodeF32, hco]
    rcases hvecp with rfl | rfl | rfl
    · rcases ns with _ | ⟨a, ns⟩
      · simp [wgslTypeInfo] at hlen2
      rcases ns with _ | ⟨b, ns⟩
      · simp [wgslTypeInfo] at hlen2
      have hns : ns = [] := by
        have : ns.length = 0 := by simpa [wgslTypeInfo] using hlen2
        exact List.length_eq_zero.mp this
      subst hns
      have h0 : decodeF32 out fl.floatOffset = some a := by
        simpa using hcomp 0 a rfl (by simp [wgslTypeInfo])
      have h1 : decodeF32 out (fl.floatOffset + 1) = some b := by
        simpa using hcomp 1 b rfl (by simp [wgslTypeInfo])
      simp [decodePrim, h0, h1]
    · rcases ns with _ | ⟨a, ns⟩
      · simp [wgslTypeInfo] at hlen2
      rcases ns with _ | ⟨b, ns⟩
      · simp [wgslTypeInfo] at hlen2
      rcases ns with _ | ⟨c, ns⟩
      · simp [wgslTypeInfo] at hlen2
      have hns : ns = [] := by
        have : ns.length = 0 := by simpa [wgslTypeInfo] using hlen2
        exact List.length_eq_zero.mp this
      subst hns
      have h0 : decodeF32 out fl.floatOffset = some a := by
        simpa using hcomp 0 a rfl (by simp [wgslTypeInfo])
      have h1 : decodeF32 out (fl.floatOffset + 1) = some b := by
        simpa using hcomp 1 b rfl (by simp [wgslTypeInfo])
      have h2 : decodeF32 out (fl.floatOffset + 2) = some c := by
        simpa using hcomp 2 c rfl (by simp [wgslTypeInfo])
      simp [decodePrim, h0, h1, h2]
    · rcases ns with _ | ⟨a, ns⟩
      · simp [wgslTypeInfo] at hlen2
      rcases ns with _ | ⟨b, ns⟩
      · simp [wgslTypeInfo] at hlen2
      rcases ns with _ | ⟨c, ns⟩
      · simp [wgslTypeInfo] at hlen2
      rcases ns with _ | ⟨d, ns⟩
      · simp [wgslTypeInfo] at hlen2
      have hns : ns = [] := by
        have : ns.length = 0 := by simpa [wgslTypeInfo] using hlen2
        exact List.length_eq_zero.mp this
      subst hns
      have h0 : decodeF32 out fl.floatOffset = some a := by
        simpa using hcomp 0 a rfl (by simp [wgslTypeInfo])
      have h1 : decodeF32 out (fl.floatOffset + 1) = some b := by
        simpa using hcomp 1 b rfl (by simp [wgslTypeInfo])
      have h2 : decodeF32 out (fl.floatOffset + 2) = some c := by
        simpa using hcomp 2 c rfl (by simp [wgslTypeInfo])
      have h3 : decodeF32 out (fl.floatOffset + 3) = some d := by
        simpa using hcomp 3 d rfl (by simp [wgslTypeInfo])
      simp [decodePrim, h0, h1, h2, h3]

/-- Witness schema for the amended C5: a u32 field holding 2^32 - 1. -/
def wC5WSchema : SchemaDefinition := .cons "count" (.prim .u32) .nil

def wC5WData : DataValue := .obj [("count", .num 4294967295)]

def wC5WOut : List Word := [.bits 4294967295, .f32 0, .f32 0, .f32 0]

theorem wC5W_bits : intStoreBits (some (.num 4294967295)) = 4294967295 := by decide

theorem wC5W_pack :
    packData (some wC5WData) (calculateStructLayout wC5WSchema)
      (List.replicate 4 (Word.f32 9)) 0 wC2Ctx = .ok wC5WOut := by
  simp [packData, packFieldsAux, packPrimField, finalPaddingFill, lookupFieldValue,
    calculateStructLayout, layoutFieldsAux, resolveFieldInfo, finishLayout, mkFieldLayout,
    padBytesFor, vec3PaddingAfter, wgslTypeInfo, wC5WSchema, wC5WData, wC5WOut, jsProp,
    jsIsArray, jsIndex, setZeros, wC5W_bits, zeroWord, List.set, List.replicate]

/-- Witness for the amended C5: the u32 value 2^32 - 1 round-trips bit-exact
through pack and decode. -/
theorem claim_C5_amended_witness :
    decodePrim .u32 wC5WOut 0 = some (.num 4294967295) :=
  (claim_C5_amended wC5WSchema (some wC5WData) wC2Ctx (List.replicate 4 (Word.f32 9))
      wC5WOut (by decide) wC5W_pack 0
      ((calculateStructLayout wC5WSchema).fields.getD 0 defaultFL) rfl
      WGSLPrimitiveType.u32 rfl (.num 4294967295) rfl).1 4294967295 rfl
    (fun h => absurd h (by decide)) (fun h => by decide)
    (fun h => absurd h (by decide)) (Or.inr (Or.inl rfl))

/-! ### ComputeRenderer texture state (computeRenderer.ts)

The texture-related state of a `ComputeRenderer`: the clamped `maxTextures`
budget from the constructor, whether `this.device` is set (it is assigned
by the renderer's init method, so `device = false` models a renderer whose
init has not completed), the loaded textures (width, height), the
url-to-index texture cache, and a generation counter bumped by
`updateComputeBindGroup` so bind-group churn is observable. -/
structure RendererState where
  maxTextures : Int
  device : Bool
  textures : List (Nat × Nat)
  textureCache : List (String × Nat)
  bindGroupGen : Nat
deriving DecidableEq

/-- `this.maxTextures = Math.min(config.maxTextures ?? 0, 8)` (line 66). -/
def effectiveMaxTextures (cfgMaxTextures : Option Int) : Int :=
  min (cfgMaxTextures.getD 0) 8

/-- The outcome of one `loadTexture` call: an error raised before the first
await, the early cache-hit return, the null result of a failed fetch or
decode, or a successful load. -/
inductive LoadOutcome where
  | thrown : LoadOutcome
  | cached : Nat → Nat → Nat → LoadOutcome
  | nullResult : LoadOutcome
  | loaded : Nat → Nat → Nat → LoadOutcome
deriving DecidableEq

/-- `loadTexture(imageUrl)` (computeRenderer.ts lines 543-673): the guard
throws, the cache early-return, the budget throw, then the fetch/decode
(modelled by `fetch`, whose error case covers a failed fetch, a non-ok
response or a failed decode) followed by the state mutations that happen
only on success. -/
def loadTexture (st : RendererState) (url : String)
    (fetch : Except Unit (Nat × Nat)) : LoadOutcome × RendererState :=
  if st.maxTextures = 0 then (.thrown, st)
  else if st.device = false then (.thrown, st)
  else match st.textureCache.find? (fun p => p.1 == url) with
    | some hit =>
      (.cached hit.2 (st.textures.getD hit.2 (0, 0)).1 (st.textures.getD hit.2 (0, 0)).2, st)
    | none =>
      if st.maxTextures ≤ (st.textures.length : Int) then (.thrown, st)
      else match fetch with
        | .error _ => (.nullResult, st)
        | .ok wh =>
          (.loaded st.textures.length wh.1 wh.2,
            { st with
              textures := st.textures ++ [wh],
              textureCache := st.textureCache ++ [(url, st.textures.length)],
              bindGroupGen := st.bindGroupGen + 1 })

/-- One emitted line of `generateTextureBindings`: a texture declaration
`@binding(b) var computeTextureI : texture_2d<f32>` or the sampler
declaration `@binding(b) var computeTextureSampler : sampler`. -/
inductive TexBinding where
  | texture : Int → Nat → TexBinding
  | sampler : Int → TexBinding
deriving DecidableEq

def isTextureDecl : TexBinding → Bool
  | .texture _ _ => true
  | .sampler _ => false

def bindingOf : TexBinding → Int
  | .texture b _ => b
  | .sampler b => b

/-- The resource declarations emitted by `generateTextureBindings` (lines
317-356): nothing when `maxTextures === 0`, else one texture per loop
iteration (`for (let i = 0; i < maxTextures; i++)`, bindings 2..) followed
by the sampler at binding `2 + maxTextures`. -/
def generateTextureBindingsDecls (maxTextures : Int) : List TexBinding :=
  if maxTextures = 0 then []
  else ((List.range maxTextures.toNat).map fun i => .texture (2 + (i : Int)) i) ++
    [.sampler (2 + maxTextures)]

/-- The binding indices of `createComputeBindGroupEntries` (lines 358-391):
uniforms at 0 and the output image at 1, then — only when
`maxTextures > 0` — one entry per texture slot and the sampler entry. -/
def createComputeBindGroupEntries (maxTextures : Int) (texturesLen : Nat) : List Int :=
  [0, 1] ++ (if 0 < maxTextures then
    ((List.range maxTextures.toNat).map fun (i : Nat) => 2 + (i : Int)) ++ [2 + maxTextures]
  else [])

/-- C9: loadTexture raises before its first await exactly when the renderer
is uninitialized, texture support is disabled, or the slot budget is already
exhausted for an uncached url; and a failed fetch/decode of an uncached url
yields the null result with the renderer state untouched. -/
theorem claim_C9 (st : RendererState) (url : String)
    (fetch : Except Unit (Nat × Nat)) :
    ((loadTexture st url fetch).1 = .thrown ↔
      st.device = false ∨ st.maxTextures = 0 ∨
      (st.textureCache.find? (fun p => p.1 == url) = none ∧
        st.maxTextures ≤ (st.textures.length : Int))) ∧
    (∀ e, fetch = .error e →
      st.device = true → st.maxTextures ≠ 0 →
      st.textureCache.find? (fun p => p.1 == url) = none →
      (st.textures.length : Int) < st.maxTextures →
      (loadTexture st url fetch).1 = .nullResult ∧
        (loadTexture st url fetch).2 = st) := by
  constructor
  · by_cases h0 : st.maxTextures = 0
    · simp [loadTexture, h0]
    · by_cases hd : st.device = false
      · simp [loadTexture, h0, hd]
      · cases hc : st.textureCache.find? (fun p => p.1 == url) with
        | some hit => simp [loadTexture, h0, hd, hc]
        | none =>
          by_cases hb : st.maxTextures ≤ (st.textures.length : Int)
          · simp [loadTexture, h0, hd, hc, hb]
          · cases fetch with
            | error e => simp [loadTexture, h0, hd, hc, hb]
            | ok wh => simp [loadTexture, h0, hd, hc, hb]
  · intro e hf hdev hmax hc hlt
    subst hf
    constructor <;> simp [loadTexture, hmax, hdev, hc, not_le.mpr hlt]

/-- Witness for C9: a failed fetch on an empty, enabled renderer returns the
null outcome and leaves the state exactly as it was. -/
theorem claim_C9_witness :
    (loadTexture ⟨3, true, [], [], 0⟩ "tex.png" (.error ())).1 = .nullResult ∧
    (loadTexture ⟨3, true, [], [], 0⟩ "tex.png" (.error ())).2 = ⟨3, true, [], [], 0⟩ :=
  (claim_C9 ⟨3, true, [], [], 0⟩ "tex.png" (.error ())).2 () rfl rfl
    (by decide) rfl (by decide)

/-- C10 counterexample: with `maxTextures: -1` the clamp yields -1, not a
usable slot count: the texture-binding block is emitted (it is only skipped
for exactly 0) with zero texture declarations — so the count used is not
min(cfg, 8) = -1 — and its sampler lands on binding 1, colliding with the
output-image binding, while the bind-group entries get no texture tail at
all, disagreeing with the emitted declarations. -/
theorem claim_C10_counterexample :
    effectiveMaxTextures (some (-1)) = -1 ∧
    ((generateTextureBindingsDecls (effectiveMaxTextures (some (-1)))).filter
      isTextureDecl).length = 0 ∧
    ((0 : Int) ≠ -1) ∧
    generateTextureBindingsDecls (effectiveMaxTextures (some (-1))) = [.sampler 1] ∧
    createComputeBindGroupEntries (effectiveMaxTextures (some (-1))) 0 = [0, 1] := by
  decide

/-- Amended C10: for non-negative configured values (and when unset), the
effective slot count min(config.maxTextures ?? 0, 8) is at most 8 and is
used consistently: it is the number of texture declarations emitted, the
bind-group entries are exactly binding 0, binding 1 and the declared
texture/sampler bindings, and loadTexture only ever grows the texture list
by one while strictly below that budget. -/
theorem claim_C10_amended (cfg : Option Int) (h0 : 0 ≤ cfg.getD 0)
    (n : Nat) (st : RendererState) (url : String)
    (fetch : Except Unit (Nat × Nat))
    (hst : st.maxTextures = effectiveMaxTextures cfg) :
    effectiveMaxTextures cfg ≤ 8 ∧
    ((generateTextureBindingsDecls (effectiveMaxTextures cfg)).filter
      isTextureDecl).length = (effectiveMaxTextures cfg).toNat ∧
    createComputeBindGroupEntries (effectiveMaxTextures cfg) n =
      [0, 1] ++ (generateTextureBindingsDecls (effectiveMaxTextures cfg)).map bindingOf ∧
    ((loadTexture st url fetch).2.textures.length = st.textures.length ∨
      ((st.textures.length : Int) < effectiveMaxTextures cfg ∧
        (loadTexture st url fetch).2.textures.length = st.textures.length + 1)) := by
  have hm8 : effectiveMaxTextures cfg ≤ 8 := by
    show min (cfg.getD 0) 8 ≤ 8
    exact min_le_right _ _
  have hm0 : 0 ≤ effectiveMaxTextures cfg := by
    show 0 ≤ min (cfg.getD 0) 8
    exact le_min h0 (by norm_num)
  refine ⟨hm8, ?_, ?_, ?_⟩
  · by_cases hz : effectiveMaxTextures cfg = 0
    · simp [generateTextureBindingsDecls, hz]
    · rw [generateTextureBindingsDecls, if_neg hz, List.filter_append]
      have h1 : ((List.range (effectiveMaxTextures cfg).toNat).map
          (fun (j2 : Nat) => TexBinding.texture (2 + (j2 : Int)) j2)).filter isTextureDecl =
          (List.range (effectiveMaxTextures cfg).toNat).map
            (fun (j2 : Nat) => TexBinding.texture (2 + (j2 : Int)) j2) := by
        apply List.filter_eq_self.mpr
        intro x hx
        simp only [List.mem_map] at hx
        obtain ⟨j, _, rfl⟩ := hx
        rfl
      have h2 : List.filter isTextureDecl
          [TexBinding.sampler (2 + effectiveMaxTextures cfg)] = [] := rfl
      rw [h1, h2]
      simp
  · by_cases hz : effectiveMaxTextures cfg = 0
    · have hnp : ¬ (0 < effectiveMaxTextures cfg) := by omega
      simp [createComputeBindGroupEntries, generateTextureBindingsDecls, hz, hnp]
    · have hpos : 0 < effectiveMaxTextures cfg := by omega
      rw [createComputeBindGroupEntries, generateTextureBindingsDecls, if_neg hz,
        if_pos hpos, List.map_append, List.map_map]
      have hfun : (bindingOf ∘ fun (j2 : Nat) => TexBinding.texture (2 + (j2 : Int)) j2) =
          fun (j2 : Nat) => 2 + (j2 : Int) := by
        funext j
        rfl
      rw [hfun]
      rfl
  · by_cases h1 : st.maxTextures = 0
    · left; simp [loadTexture, h1]
    · by_cases hd : st.device = false
      · left; simp [loadTexture, h1, hd]
      · cases hc : st.textureCache.find? (fun p => p.1 == url) with
        | some hit => left; simp [loadTexture, h1, hd, hc]
        | none =>
          by_cases hb : st.maxTextures ≤ (st.textures.length : Int)
          · left; simp [loadTexture, h1, hd, hc, hb]
          · cases fetch with
            | error e => left; simp [loadTexture, h1, hd, hc, hb]
            | ok wh =>
              right
              refine ⟨?_, ?_⟩
              · have hlt := not_le.mp hb
                rw [hst] at hlt
                exact hlt
              · simp [loadTexture, h1, hd, hc, hb]

/-- Witness for the amended C10: a configured value of 99 clamps to 8, the
declarations/entries agree, and a successful load on an empty renderer with
budget 8 grows the texture list to one. -/
theorem claim_C10_amended_witness :
    effectiveMaxTextures (some 99) ≤ 8 ∧
    ((generateTextureBindingsDecls (effectiveMaxTextures (some 99))).filter
      isTextureDecl).length = (effectiveMaxTextures (some 99)).toNat ∧
    createComputeBindGroupEntries (effectiveMaxTextures (some 99)) 0 =
      [0, 1] ++ (generateTextureBindingsDecls (effectiveMaxTextures (some 99))).map bindingOf ∧
    ((loadTexture ⟨8, true, [], [], 0⟩ "t.png" (.ok (2, 2))).2.textures.length =
        ([] : List (Nat × Nat)).length ∨
      ((([] : List (Nat × Nat)).length : Int) < effectiveMaxTextures (some 99) ∧
        (loadTexture ⟨8, true, [], [], 0⟩ "t.png" (.ok (2, 2))).2.textures.length =
          ([] : List (Nat × Nat)).length + 1)) :=
  claim_C10_amended (some 99) (by decide) 0 ⟨8, true, [], [], 0⟩ "t.png"
    (.ok (2, 2)) (by decide)

/-! ### WGSL code generation (uniformSchema.ts lines 216-328)

`generateWGSLStruct` builds the struct text line by line; here each emitted
member line `  name: type,` becomes a `(name, type)` pair, so the embedded
output is the member list of each emitted struct declaration. -/

/-- `capitalize`: `str.charAt(0).toUpperCase() + str.slice(1)`. -/
def capitalize (str : String) : String :=
  match str.data with
  | [] => ""
  | c :: rest => String.mk (c.toUpper :: rest)

/-- A WGSL type as it appears in an emitted member line: a primitive name, a
reference to a declared struct, or `array<T, N>`. -/
inductive WGSLType where
  | prim : WGSLPrimitiveType → WGSLType
  | named : String → WGSLType
  | array : WGSLType → Nat → WGSLType
deriving DecidableEq, Repr

/-- One emitted `struct Name { members }` declaration. -/
structure WGSLDecl where
  name : String
  members : List (String × WGSLType)
deriving DecidableEq, Repr

/-- The `_paddingN: f32` member lines pushed by a padding loop starting at
`paddingCounter = counter`. -/
def paddingFields (counter count : Nat) : List (String × WGSLType) :=
  (List.range count).map fun i => ("_padding" ++ toString (counter + i), WGSLType.prim .f32)

/-- The member lines pushed by the `for (const field of layout.fields)` loop
of `generateWGSLStruct`, threading `paddingCounter`; array fields emit
nothing under `skipArrays`, primitive fields are followed by their
`paddingAfter` padding members, nested-struct fields reference the
capitalized struct name.  The source renders `field.arrayLength` into the
`array<_, N>` text; it is `undefined`-free on compiled layouts, and the
embedded `getD 0` covers the same values there. -/
def structMembersAux : List FieldLayout → Bool → Nat → List (String × WGSLType) × Nat
  | [], _, counter => ([], counter)
  | field :: rest, skipArrays, counter =>
    if field.isArray then
      let here : List (String × WGSLType) :=
        if skipArrays then []
        else
          match field.type with
          | .arrayStruct _ _ =>
            [(field.name, .array (.named (capitalize field.name ++ "Element"))
              (field.arrayLength.getD 0))]
          | .arrayPrim p _ => [(field.name, .array (.prim p) (field.arrayLength.getD 0))]
          | _ => []
      let tail := structMembersAux rest skipArrays counter
      (here ++ tail.1, tail.2)
    else
      match field.type with
      | .prim p =>
        let tail := structMembersAux rest skipArrays (counter + field.paddingAfter)
        ((field.name, .prim p) :: (paddingFields counter field.paddingAfter ++ tail.1), tail.2)
      | .struct _ =>
        let tail := structMembersAux rest skipArrays counter
        ((field.name, .named (capitalize field.name)) :: tail.1, tail.2)
      | _ => structMembersAux rest skipArrays counter

/-- `generateWGSLStruct`: the field-loop members followed (unless
`skipArrays`) by the final padding members up to `totalFloats`, when the
last field exists and is not an array. -/
def generateWGSLStruct (name : String) (layout : StructLayout) (skipArrays : Bool) : WGSLDecl :=
  let loop := structMembersAux layout.fields skipArrays 1
  let finalPads :=
    if skipArrays then []
    else
      match layout.fields.getLast? with
      | none => []
      | some lastField =>
        if lastField.isArray then []
        else paddingFields loop.2 (layout.totalFloats - fieldSpanEnd lastField)
  ⟨name, loop.1 ++ finalPads⟩

/-- The nested/element struct declarations `generateWGSLBindings` emits, in
schema order: one per nested-struct field, one (with `skipArrays`) per
array-of-structs field. -/
def nestedStructsOf : SchemaDefinition → List WGSLDecl
  | .nil => []
  | .cons name t rest =>
    (match t with
      | .struct s =>
        [generateWGSLStruct (capitalize name) (calculateStructLayout s) false]
      | .arrayStruct s _ =>
        [generateWGSLStruct (capitalize name ++ "Element") (calculateStructLayout s) true]
      | _ => []) ++ nestedStructsOf rest

/-- `generateWGSLBindings`: the nested struct declarations followed by the
main `Uniforms` struct (the two fixed resource-binding lines carry no layout
content). -/
def generateWGSLBindings (schema : SchemaDefinition) : List WGSLDecl :=
  nestedStructsOf schema ++ [generateWGSLStruct "Uniforms" (calculateStructLayout schema) false]

/-! ### The byte layout implied by WGSL struct text

The spec side of C1: the offsets a WGSL front end assigns to the emitted
struct text under WGSL's default structure-layout rules (align to the
member type's alignment; array stride = roundUp(align, size); struct align =
max member align, size rounded up to it). -/

structure WGSLTypeLayout where
  align : Nat
  size : Nat
deriving DecidableEq, Repr

def wgslRound (align offset : Nat) : Nat := (offset + align - 1) / align * align

/-- WGSL alignment and size of the scalar and vector types. -/
def wgslPrimLayout : WGSLPrimitiveType → WGSLTypeLayout
  | .f32 => ⟨4, 4⟩
  | .u32 => ⟨4, 4⟩
  | .i32 => ⟨4, 4⟩
  | .vec2f => ⟨8, 8⟩
  | .vec3f => ⟨16, 12⟩
  | .vec4f => ⟨16, 16⟩

/-- Alignment and size of an emitted WGSL type, resolving struct references
in an environment of previously declared structs. -/
def wgslTypeLayoutIn (env : List (String × WGSLTypeLayout)) : WGSLType → Option WGSLTypeLayout
  | .prim p => some (wgslPrimLayout p)
  | .named n => (env.find? (fun e => e.1 == n)).map (fun e => e.2)
  | .array e n =>
    (wgslTypeLayoutIn env e).map fun le => ⟨le.align, n * wgslRound le.align le.size⟩

/-- WGSL's default member placement: each member at the next multiple of its
alignment.  Returns the member offsets, the first byte past the last member,
and the maximum member alignment. -/
def wgslMembersLayout (env : List (String × WGSLTypeLayout)) :
    List (String × WGSLType) → Nat → Option (List (String × Nat) × Nat × Nat)
  | [], cursor => some ([], cursor, 1)
  | m :: rest, cursor =>
    match wgslTypeLayoutIn env m.2 with
    | none => none
    | some tl =>
      match wgslMembersLayout env rest (wgslRound tl.align cursor + tl.size) with
      | none => none
      | some r => some ((m.1, wgslRound tl.align cursor) :: r.1, r.2.1, max tl.align r.2.2)

/-- The WGSL layout of a declared struct: align = max member alignment, size
= span rounded up to it. -/
def wgslStructLayoutOf (env : List (String × WGSLTypeLayout))
    (members : List (String × WGSLType)) : Option WGSLTypeLayout :=
  (wgslMembersLayout env members 0).map fun r => ⟨r.2.2, wgslRound r.2.2 r.2.1⟩

/-- Fold the emitted declarations, in order, into a layout environment. -/
def wgslEnvOfAux (env : List (String × WGSLTypeLayout)) :
    List WGSLDecl → List (String × WGSLTypeLayout)
  | [] => env
  | d :: rest =>
    match wgslStructLayoutOf env d.members with
    | none => wgslEnvOfAux env rest
    | some tl => wgslEnvOfAux (env ++ [(d.name, tl)]) rest

def wgslEnvOf (ds : List WGSLDecl) : List (String × WGSLTypeLayout) := wgslEnvOfAux [] ds

/-- The member offsets the emitted `Uniforms` struct text implies. -/
def wgslImpliedMainOffsets (schema : SchemaDefinition) : Option (List (String × Nat)) :=
  (wgslMembersLayout (wgslEnvOf (nestedStructsOf schema))
    (generateWGSLStruct "Uniforms" (calculateStructLayout schema) false).members 0).map
    (fun r => r.1)

/-- The total byte size the emitted `Uniforms` struct text implies. -/
def wgslImpliedMainSize (schema : SchemaDefinition) : Option Nat :=
  (wgslStructLayoutOf (wgslEnvOf (nestedStructsOf schema))
    (generateWGSLStruct "Uniforms" (calculateStructLayout schema) false).members).map
    (fun tl => tl.size)

/-- Counterexample schema for C1: an f32 array followed by an f32 scalar. -/
def wC1Schema : SchemaDefinition :=
  .cons "vals" (.arrayPrim .f32 2) (.cons "tail" (.prim .f32) .nil)

/-- C1 counterexample: the packer places `tail` at byte 32 (16-byte array
strides), but the emitted `vals: array<f32, 2>` implies a 4-byte stride, so
the struct text places `tail` at byte 8 — the two layouts are not
bit-identical. -/
theorem claim_C1_counterexample :
    ((calculateStructLayout wC1Schema).fields.getD 1 defaultFL).name = "tail" ∧
    ((calculateStructLayout wC1Schema).fields.getD 1 defaultFL).offset = 32 ∧
    (wgslImpliedMainOffsets wC1Schema).map
      (fun offs => (offs.find? (fun m => m.1 == "tail")).map (fun m => m.2)) =
      some (some 8) ∧
    (8 : Nat) ≠ 32 := by
  refine ⟨rfl, rfl, rfl, by omega⟩

/-- The schemas the amended C1 covers: every field a non-array primitive. -/
def wgslCompatible : SchemaDefinition → Bool
  | .nil => true
  | .cons _ t rest =>
    (match t with
      | .prim _ => true
      | _ => false) && wgslCompatible rest

theorem wgslRound_eq_pad (a off : Nat) (h : a = 4 ∨ a = 8 ∨ a = 16) :
    wgslRound a off = off + padBytesFor off a := by
  rcases h with h | h | h <;> subst h <;>
    simp only [wgslRound, padBytesFor, beq_iff_eq] <;> split <;> omega

theorem wgslRound_id (a n : Nat) (ha : a = 1 ∨ a = 4 ∨ a = 8 ∨ a = 16)
    (hn : n % 16 = 0) : wgslRound a n = n := by
  rcases ha with h | h | h | h <;> subst h <;> simp only [wgslRound] <;> omega

theorem wgslMembersLayout_maxpos (env : List (String × WGSLTypeLayout)) :
    ∀ (ms : List (String × WGSLType)) (cursor : Nat) (r : List (String × Nat) × Nat × Nat),
      wgslMembersLayout env ms cursor = some r → 1 ≤ r.2.2
  | [], cursor, r => by
    intro h
    simp only [wgslMembersLayout, Option.some.injEq] at h
    subst h
    exact Nat.le_refl 1
  | m :: rest, cursor, r => by
    intro h
    simp only [wgslMembersLayout] at h
    cases h1 : wgslTypeLayoutIn env m.2 with
    | none => rw [h1] at h; cases h
    | some tl =>
      rw [h1] at h
      dsimp only at h
      cases h2 : wgslMembersLayout env rest (wgslRound tl.align cursor + tl.size) with
      | none => rw [h2] at h; cases h
      | some r2 =>
        rw [h2] at h
        simp only [Option.some.injEq] at h
        subst h
        have := wgslMembersLayout_maxpos env rest _ r2 h2
        simp only []
        omega

theorem wgslMembersLayout_append (env : List (String × WGSLTypeLayout)) :
    ∀ (xs ys : List (String × WGSLType)) (cursor : Nat),
      wgslMembersLayout env (xs ++ ys) cursor =
        match wgslMembersLayout env xs cursor with
        | none => none
        | some r =>
          match wgslMembersLayout env ys r.2.1 with
          | none => none
          | some r2 => some (r.1 ++ r2.1, r2.2.1, max r.2.2 r2.2.2)
  | [], ys, cursor => by
    simp only [List.nil_append, wgslMembersLayout]
    cases h : wgslMembersLayout env ys cursor with
    | none => rfl
    | some r2 =>
      have h1 := wgslMembersLayout_maxpos env ys cursor r2 h
      simp only []
      rw [Nat.max_eq_right h1]
  | x :: xs, ys, cursor => by
    simp only [List.cons_append, wgslMembersLayout]
    cases h1 : wgslTypeLayoutIn env x.2 with
    | none => rfl
    | some tl =>
      dsimp only
      simp only [List.append_eq]
      rw [wgslMembersLayout_append env xs ys (wgslRound tl.align cursor + tl.size)]
      cases h2 : wgslMembersLayout env xs (wgslRound tl.align cursor + tl.size) with
      | none => rfl
      | some r =>
        dsimp only
        cases h3 : wgslMembersLayout env ys r.2.1 with
        | none => rfl
        | some r2 =>
          dsimp only
          simp only [List.cons_append, Nat.max_assoc]

theorem wgslMembersLayout_pads (env : List (String × WGSLTypeLayout)) :
    ∀ (k c cursor : Nat), cursor % 4 = 0 →
      ∃ offs maxA, wgslMembersLayout env (paddingFields c k) cursor =
        some (offs, cursor + 4 * k, maxA) ∧ (maxA = 1 ∨ maxA = 4)
  | 0, c, cursor => by
    intro h4
    refine ⟨[], 1, ?_, Or.inl rfl⟩
    simp [paddingFields, wgslMembersLayout]
  | k + 1, c, cursor => by
    intro h4
    have hsplit : paddingFields c (k + 1) =
        ("_padding" ++ toString c, WGSLType.prim .f32) :: paddingFields (c + 1) k := by
      simp only [paddingFields, List.range_succ_eq_map, List.map_cons, List.map_map]
      refine congrArg₂ _ (by simp) ?_
      apply List.map_congr_left
      intro i hi
      simp only [Function.comp]
      have harith : c + (i + 1) = c + 1 + i := by omega
      rw [harith]
    obtain ⟨offs, maxA, hrec, hA⟩ := wgslMembersLayout_pads env k (c + 1) (cursor + 4)
      (by omega)
    refine ⟨("_padding" ++ toString c, cursor) :: offs, max 4 maxA, ?_, ?_⟩
    · rw [hsplit]
      simp only [wgslMembersLayout, wgslTypeLayoutIn, wgslPrimLayout]
      have hr : wgslRound 4 cursor = cursor := by
        simp only [wgslRound]; omega
      rw [hr, hrec]
      have harith : cursor + 4 + 4 * k = cursor + 4 * (k + 1) := by ring
      rw [harith]
    · right
      rcases hA with h | h <;> subst h <;> rfl

/-- Every field of a wgsl-compatible (flat primitive) schema is a non-array
primitive. -/
theorem flat_fields_prim : (s : SchemaDefinition) → wgslCompatible s = true → ∀ o fo,
    ∀ fl ∈ (layoutFieldsAux s o fo).1, ∃ p, fl.type = .prim p ∧ fl.isArray = false
  | .nil => by intro hc o fo fl h; simp [layoutFieldsAux] at h
  | .cons name t rest => by
    intro hc o fo fl h
    cases t with
    | prim p =>
      have hcrest : wgslCompatible rest = true := by simpa [wgslCompatible] using hc
      simp only [layoutFieldsAux, List.mem_cons] at h
      rcases h with h | h
      · subst h
        exact ⟨p, rfl, rfl⟩
      · exact flat_fields_prim rest hcrest _ _ fl h
    | struct s2 => simp [wgslCompatible] at hc
    | arrayStruct s2 len => simp [wgslCompatible] at hc
    | arrayPrim p len => simp [wgslCompatible] at hc

/-- The float cursor after the layout loop is the span end of the last
emitted field. -/
theorem layoutAux_last_span : (s : SchemaDefinition) → ∀ o fo last,
    (layoutFieldsAux s o fo).1.getLast? = some last →
    (layoutFieldsAux s o fo).2.2 = fieldSpanEnd last
  | .nil => by
    intro o fo last h
    simp [layoutFieldsAux] at h
  | .cons name t .nil => by
    intro o fo last h
    simp only [layoutFieldsAux, List.getLast?_singleton, Option.some.injEq] at h
    subst h
    simp only [layoutFieldsAux, fieldSpanEnd, mkFieldLayout]
  | .cons name t (.cons name2 t2 rest2) => by
    intro o fo last h
    simp only [layoutFieldsAux] at h ⊢
    rw [List.getLast?_cons_cons] at h
    exact layoutAux_last_span (.cons name2 t2 rest2) _ _ last h

/-- Core of the amended C1: over a flat primitive schema, the WGSL offsets
implied by the loop-emitted members reproduce the compiler's byte offsets
field for field, with the byte cursor agreeing at every step. -/
theorem flat_wgsl_members : (s : SchemaDefinition) → wgslCompatible s = true →
    ∀ (env : List (String × WGSLTypeLayout)) (counter off fo : Nat), off = 4 * fo →
    ∃ offs maxA,
      wgslMembersLayout env (structMembersAux (layoutFieldsAux s off fo).1 false counter).1
        off = some (offs, (layoutFieldsAux s off fo).2.1, maxA) ∧
      (maxA = 1 ∨ maxA = 4 ∨ maxA = 8 ∨ maxA = 16) ∧
      ∀ fl ∈ (layoutFieldsAux s off fo).1, (fl.name, fl.offset) ∈ offs
  | .nil => by
    intro hc env counter off fo h4
    refine ⟨[], 1, ?_, Or.inl rfl, ?_⟩
    · simp [layoutFieldsAux, structMembersAux, wgslMembersLayout]
    · intro fl hfl
      simp [layoutFieldsAux] at hfl
  | .cons name t rest => by
    intro hc env counter off fo h4
    cases t with
    | struct s2 => simp [wgslCompatible] at hc
    | arrayStruct s2 len => simp [wgslCompatible] at hc
    | arrayPrim p len => simp [wgslCompatible] at hc
    | prim p =>
      have hcrest : wgslCompatible rest = true := by simpa [wgslCompatible] using hc
      have haligncases : (wgslTypeInfo p).alignment = 4 ∨ (wgslTypeInfo p).alignment = 8 ∨
          (wgslTypeInfo p).alignment = 16 := by cases p <;> simp [wgslTypeInfo]
      have hpadspec := padBytesFor_spec off (wgslTypeInfo p).alignment haligncases
      have hsz4 : (wgslTypeInfo p).size = 4 * (wgslTypeInfo p).floatCount := by
        cases p <;> rfl
      have hoff4 : off % 4 = 0 := by omega
      have hpad4 : padBytesFor off (wgslTypeInfo p).alignment % 4 = 0 := hpadspec.2.2 hoff4
      have halign : (wgslPrimLayout p).align = (wgslTypeInfo p).alignment := by
        cases p <;> rfl
      have hsize : (wgslPrimLayout p).size = (wgslTypeInfo p).size := by
        cases p <;> rfl
      have h4' : off + padBytesFor off (wgslTypeInfo p).alignment + (wgslTypeInfo p).size +
          vec3PaddingAfter (.prim p) * 4 =
          4 * (fo + padBytesFor off (wgslTypeInfo p).alignment / 4 +
            (wgslTypeInfo p).floatCount + vec3PaddingAfter (.prim p)) := by
        omega
      obtain ⟨offsT, maxT, hT, hTA, hTmem⟩ := flat_wgsl_members rest hcrest env
        (counter + vec3PaddingAfter (.prim p))
        (off + padBytesFor off (wgslTypeInfo p).alignment + (wgslTypeInfo p).size +
          vec3PaddingAfter (.prim p) * 4)
        (fo + padBytesFor off (wgslTypeInfo p).alignment / 4 +
          (wgslTypeInfo p).floatCount + vec3PaddingAfter (.prim p)) h4'
      obtain ⟨offsP, maxP, hP, hPA⟩ := wgslMembersLayout_pads env
        (vec3PaddingAfter (.prim p)) counter
        (off + padBytesFor off (wgslTypeInfo p).alignment + (wgslTypeInfo p).size)
        (by omega)
      have hcursor : off + padBytesFor off (wgslTypeInfo p).alignment +
          (wgslTypeInfo p).size + 4 * vec3PaddingAfter (.prim p) =
          off + padBytesFor off (wgslTypeInfo p).alignment + (wgslTypeInfo p).size +
            vec3PaddingAfter (.prim p) * 4 := by ring
      rw [hcursor] at hP
      refine ⟨(name, off + padBytesFor off (wgslTypeInfo p).alignment) :: (offsP ++ offsT),
        max (wgslTypeInfo p).alignment (max maxP maxT), ?_, ?_, ?_⟩
      · simp only [layoutFieldsAux, structMembersAux, mkFieldLayout, resolveFieldInfo]
        simp only [Bool.false_eq_true, if_false]
        simp only [wgslMembersLayout, wgslTypeLayoutIn]
        try dsimp only
        rw [halign, hsize, wgslRound_eq_pad _ _ haligncases]
        rw [wgslMembersLayout_append env _ _ _, hP]
        try dsimp only
        rw [hT]
      · rcases haligncases with h | h | h <;> rw [h] <;>
          rcases hPA with h2 | h2 <;> rw [h2] <;>
          rcases hTA with h3 | h3 | h3 | h3 <;> rw [h3] <;> simp
      · intro fl hfl
        simp only [layoutFieldsAux, List.mem_cons] at hfl
        rcases hfl with hfl | hfl
        · subst hfl
          simp only [mkFieldLayout, resolveFieldInfo]
          exact List.mem_cons_self _ _
        · exact List.mem_cons_of_mem _ (List.mem_append_right _ (hTmem fl hfl))

/-- Amended C1: for flat primitive schemas the identity holds — the offsets
implied by the emitted `Uniforms` struct text reproduce, field for field,
the byte offsets the packer's layout assigns, and the implied struct size
equals the layout's `totalSize`. -/
theorem claim_C1_amended (schema : SchemaDefinition) (hc : wgslCompatible schema = true) :
    ∃ offs sz,
      wgslImpliedMainOffsets schema = some offs ∧
      wgslImpliedMainSize schema = some sz ∧
      sz = (calculateStructLayout schema).totalSize ∧
      ∀ fl ∈ (calculateStructLayout schema).fields, (fl.name, fl.offset) ∈ offs := by
  obtain ⟨offs0, maxA, h0, hA, hmem⟩ := flat_wgsl_members schema hc
    (wgslEnvOf (nestedStructsOf schema)) 1 0 0 rfl
  have hc4 : (layoutFieldsAux schema 0 0).2.1 = 4 * (layoutFieldsAux schema 0 0).2.2 :=
    layoutCursor_four_mul schema 0 0 rfl
  cases hlast : (layoutFieldsAux schema 0 0).1.getLast? with
  | none =>
    cases schema with
    | nil =>
      refine ⟨[], 0, rfl, rfl, rfl, ?_⟩
      intro fl hfl
      simp [calculateStructLayout, finishLayout, layoutFieldsAux] at hfl
    | cons nm t rest => simp [layoutFieldsAux] at hlast
  | some last =>
    obtain ⟨p, hp, harr⟩ := flat_fields_prim schema hc 0 0 last
      (mem_of_getLast?_eq hlast)
    have hspan := layoutAux_last_span schema 0 0 last hlast
    have hpad16 := padBytesFor_spec (layoutFieldsAux schema 0 0).2.1 16 (by omega)
    obtain ⟨offsP, maxP, hP, hPA⟩ := wgslMembersLayout_pads
      (wgslEnvOf (nestedStructsOf schema))
      ((calculateStructLayout schema).totalFloats - fieldSpanEnd last)
      (structMembersAux (layoutFieldsAux schema 0 0).1 false 1).2
      (layoutFieldsAux schema 0 0).2.1 (by omega)
    have hmembers : (generateWGSLStruct "Uniforms" (calculateStructLayout schema)
        false).members =
        (structMembersAux (layoutFieldsAux schema 0 0).1 false 1).1 ++
        paddingFields (structMembersAux (layoutFieldsAux schema 0 0).1 false 1).2
          ((calculateStructLayout schema).totalFloats - fieldSpanEnd last) := by
      simp only [generateWGSLStruct]
      rw [show (calculateStructLayout schema).fields = (layoutFieldsAux schema 0 0).1
        from rfl, hlast]
      try dsimp only
      rw [harr]
      simp
    have htot : wgslMembersLayout (wgslEnvOf (nestedStructsOf schema))
        ((structMembersAux (layoutFieldsAux schema 0 0).1 false 1).1 ++
          paddingFields (structMembersAux (layoutFieldsAux schema 0 0).1 false 1).2
            ((calculateStructLayout schema).totalFloats - fieldSpanEnd last)) 0 =
        some (offs0 ++ offsP,
          (layoutFieldsAux schema 0 0).2.1 +
            4 * ((calculateStructLayout schema).totalFloats - fieldSpanEnd last),
          max maxA maxP) := by
      rw [wgslMembersLayout_append, h0]
      try dsimp only
      rw [hP]
    have hend : (layoutFieldsAux schema 0 0).2.1 +
        4 * ((calculateStructLayout schema).totalFloats - fieldSpanEnd last) =
        (calculateStructLayout schema).totalSize := by
      have h1 : (calculateStructLayout schema).totalFloats =
          (layoutFieldsAux schema 0 0).2.2 +
          padBytesFor (layoutFieldsAux schema 0 0).2.1 16 / 4 := rfl
      have h2 : (calculateStructLayout schema).totalSize =
          (layoutFieldsAux schema 0 0).2.1 +
          padBytesFor (layoutFieldsAux schema 0 0).2.1 16 := rfl
      omega
    have hmax4 : max maxA maxP = 1 ∨ max maxA maxP = 4 ∨ max maxA maxP = 8 ∨
        max maxA maxP = 16 := by
      rcases hA with h | h | h | h <;> rcases hPA with h2 | h2 <;> omega
    refine ⟨offs0 ++ offsP, (calculateStructLayout schema).totalSize, ?_, ?_, rfl, ?_⟩
    · simp only [wgslImpliedMainOffsets]
      rw [hmembers, htot]
      rfl
    · simp only [wgslImpliedMainSize, wgslStructLayoutOf]
      rw [hmembers, htot]
      try dsimp only
      rw [hend]
      simp only [Option.map_map, Option.map_some', Function.comp]
      rw [wgslRound_id _ _ hmax4 (calc_totalSize_mod16 schema)]
    · intro fl hfl
      exact List.mem_append_left _ (hmem fl hfl)

/-- Witness schema for the amended C1: a vec3f (with its mandatory padding
float) followed by an f32. -/
def wC1WSchema : SchemaDefinition :=
  .cons "pos" (.prim .vec3f) (.cons "t" (.prim .f32) .nil)

/-- Witness for the amended C1 at the vec3f + f32 schema. -/
theorem claim_C1_amended_witness :
    ∃ offs sz,
      wgslImpliedMainOffsets wC1WSchema = some offs ∧
      wgslImpliedMainSize wC1WSchema = some sz ∧
      sz = (calculateStructLayout wC1WSchema).totalSize ∧
      ∀ fl ∈ (calculateStructLayout wC1WSchema).fields, (fl.name, fl.offset) ∈ offs :=
  claim_C1_amended wC1WSchema (by decide)

end GlobeViz
